import Mathlib

/-!
# Verification of the lighter DEX client core

A shallow embedding, in Lean 4, of the core of the `lighter_client` Python
package: the WebSocket client (`src/websocket_client.py`, class
`LighterWebSocketClient`) and the precision manager
(`src/precision_manager.py`, class `PrecisionManager`), together with
theorems settling the specification claims about them.

Modelling conventions:
* Python `dict`s keyed by strings are modelled as association lists (for the
  identifier → callback-list maps) or as a fixed-field record (for the
  four-key `subscriptions` dict, whose keys are created once in `__init__`
  and never added to or removed).
* Callbacks are opaque tokens (`Nat`); invoking a callback is modelled by
  listing it in an invocation trace.
* Network effects are modelled explicitly: outbound frames are returned as a
  trace, and the outcomes of `websockets.connect` / `recv` are supplied as
  parameters (`HandshakeResult`).
* Python `float` values are modelled as exact rationals (`ℚ`), and Python's
  `round` builtin — which performs round-half-to-even — is modelled by
  `pyRound` below, made kernel-computable via `Int.ediv`/`Int.emod` on
  `Rat.num`/`Rat.den`.
* Numeric string literals of the source (`'0.001'`, `'10.0'`) are modelled
  as the exact rationals they denote, written with `mkRat` so that concrete
  evaluation reduces.
-/

namespace LighterClient

/-- Callbacks are opaque handles; the model only tracks their identity. -/
abbrev Callback := Nat

/-- Outbound wire frames sent by the client (the JSON payloads of
`subscribe`, `unsubscribe` and pong replies, identified by their content). -/
inductive Msg where
  | subscribeMsg (channel : String)
  | unsubscribeMsg (channel : String)
  | pongMsg
deriving DecidableEq

/-- The `self.subscriptions` dict of `LighterWebSocketClient.__init__`:
a dict with exactly the four fixed keys `order_book`, `trade`,
`account_all`, `ticker`, each mapping identifiers to callback lists.
The inner dicts are association lists in insertion order. -/
structure Subscriptions where
  order_book : List (String × List Callback)
  trade : List (String × List Callback)
  account_all : List (String × List Callback)
  ticker : List (String × List Callback)
deriving DecidableEq

/-- The empty subscription registry set up by `__init__`. -/
def Subscriptions.empty : Subscriptions := ⟨[], [], [], []⟩

/-- `channel_type in self.subscriptions`: membership in the four fixed keys. -/
def validChannelType (ct : String) : Bool :=
  ct = "order_book" || ct = "trade" || ct = "account_all" || ct = "ticker"

/-- Read `self.subscriptions[channel_type]` (meaningful only for the four
valid channel types; returns `[]` otherwise, a case the source never
reaches because it checks membership first). -/
def Subscriptions.get (s : Subscriptions) (ct : String) :
    List (String × List Callback) :=
  if ct = "order_book" then s.order_book
  else if ct = "trade" then s.trade
  else if ct = "account_all" then s.account_all
  else if ct = "ticker" then s.ticker
  else []

/-- Write `self.subscriptions[channel_type] = l` (no-op for an invalid
channel type, which the source never reaches). -/
def Subscriptions.set (s : Subscriptions) (ct : String)
    (l : List (String × List Callback)) : Subscriptions :=
  if ct = "order_book" then { s with order_book := l }
  else if ct = "trade" then { s with trade := l }
  else if ct = "account_all" then { s with account_all := l }
  else if ct = "ticker" then { s with ticker := l }
  else s

/-- Python dict lookup `d.get(identifier)` on an inner identifier map. -/
def innerLookup : List (String × List Callback) → String → Option (List Callback)
  | [], _ => none
  | (k, v) :: rest, identifier =>
      if k = identifier then some v else innerLookup rest identifier

/-- The registration step of `subscribe`:
`if identifier not in d: d[identifier] = []` followed by
`d[identifier].append(callback)`. A fresh key is appended at the end
(Python dicts preserve insertion order). -/
def innerAppend : List (String × List Callback) → String → Callback →
    List (String × List Callback)
  | [], identifier, cb => [(identifier, [cb])]
  | (k, v) :: rest, identifier, cb =>
      if k = identifier then (k, v ++ [cb]) :: rest
      else (k, v) :: innerAppend rest identifier cb

/-- The removal step of `unsubscribe`: `del d[identifier]`. -/
def innerErase : List (String × List Callback) → String →
    List (String × List Callback)
  | [], _ => []
  | (k, v) :: rest, identifier =>
      if k = identifier then rest else (k, v) :: innerErase rest identifier

/-- `self.subscriptions[channel_type][identifier].append(callback)`
(creating the entry if absent), for a valid channel type. -/
def Subscriptions.append (s : Subscriptions) (ct identifier : String)
    (cb : Callback) : Subscriptions :=
  s.set ct (innerAppend (s.get ct) identifier cb)

/-- The mutable state of a `LighterWebSocketClient` instance.
`websocket = some ()` models a live transport handle.
`max_reconnect_attempts` and `max_reconnect_delay` are the constants set in
`__init__` (5 and 30). -/
structure WSState where
  connected : Bool
  connecting : Bool
  reconnecting : Bool
  websocket : Option Unit
  subs : Subscriptions
  reconnect_attempts : Nat
  max_reconnect_attempts : Nat
  reconnect_delay : Nat
  max_reconnect_delay : Nat
deriving DecidableEq

/-- The state built by `LighterWebSocketClient.__init__`. -/
def initState : WSState :=
  { connected := false
    connecting := false
    reconnecting := false
    websocket := none
    subs := Subscriptions.empty
    reconnect_attempts := 0
    max_reconnect_attempts := 5
    reconnect_delay := 1
    max_reconnect_delay := 30 }

/-- The value produced by one public API call: either a raised
`WebSocketClientError` (with its message) or a returned boolean. -/
inductive Outcome where
  | raised (msg : String)
  | returned (b : Bool)
deriving DecidableEq

/-- Result of one public API call: the outcome, the post-state, and the
frames sent on the transport during the call. -/
structure CallResult where
  outcome : Outcome
  state : WSState
  sent : List Msg
deriving DecidableEq

/-- `LighterWebSocketClient.subscribe(channel_type, identifier, callback)`.
`sendOk` models whether `self.websocket.send` succeeds (the `try` block);
on a send exception nothing is registered and `False` is returned. -/
def subscribe (st : WSState) (sendOk : Bool) (ct identifier : String)
    (cb : Callback) : CallResult :=
  if ¬ validChannelType ct then
    { outcome := Outcome.raised ("unsupported channel type: " ++ ct)
      state := st, sent := [] }
  else if ¬ st.connected then
    { outcome := Outcome.returned false, state := st, sent := [] }
  else if sendOk then
    { outcome := Outcome.returned true
      state := { st with subs := st.subs.append ct identifier cb }
      sent := [Msg.subscribeMsg (ct ++ "/" ++ identifier)] }
  else
    { outcome := Outcome.returned false, state := st, sent := [] }

/-- `LighterWebSocketClient.unsubscribe(channel_type, identifier)`. -/
def unsubscribe (st : WSState) (sendOk : Bool) (ct identifier : String) :
    CallResult :=
  if ¬ validChannelType ct then
    { outcome := Outcome.raised ("unsupported channel type: " ++ ct)
      state := st, sent := [] }
  else if ¬ st.connected then
    { outcome := Outcome.returned false, state := st, sent := [] }
  else if (innerLookup (st.subs.get ct) identifier).isNone then
    { outcome := Outcome.returned false, state := st, sent := [] }
  else if sendOk then
    { outcome := Outcome.returned true
      state := { st with subs := st.subs.set ct (innerErase (st.subs.get ct) identifier) }
      sent := [Msg.unsubscribeMsg (ct ++ "/" ++ identifier)] }
  else
    { outcome := Outcome.returned false, state := st, sent := [] }

/-- The inner loop of `_resubscribe_all` for one channel type: iterate the
identifier map in order and, for every non-empty callback list, call
`subscribe` with its first callback (transport sends succeed in the
successful-reconnect scenario being modelled).  Returns the final state,
the frames sent, and the trace of `subscribe(ct, identifier, cb)` calls. -/
def resubscribeInner (st : WSState) (ct : String) :
    List (String × List Callback) → WSState × List Msg × List (String × String × Callback)
  | [] => (st, [], [])
  | (identifier, cbs) :: rest =>
    match cbs with
    | [] => resubscribeInner st ct rest
    | cb :: _ =>
      let r := subscribe st true ct identifier cb
      let res := resubscribeInner r.state ct rest
      (res.1, r.sent ++ res.2.1, (ct, identifier, cb) :: res.2.2)

/-- `LighterWebSocketClient._resubscribe_all`: the outer loop over the four
channel types in dict insertion order. -/
def resubscribeAll (st : WSState) :
    WSState × List Msg × List (String × String × Callback) :=
  let r1 := resubscribeInner st "order_book" st.subs.order_book
  let r2 := resubscribeInner r1.1 "trade" r1.1.subs.trade
  let r3 := resubscribeInner r2.1 "account_all" r2.1.subs.account_all
  let r4 := resubscribeInner r3.1 "ticker" r3.1.subs.ticker
  (r4.1, r1.2.1 ++ r2.2.1 ++ r3.2.1 ++ r4.2.1,
    r1.2.2 ++ r2.2.2 ++ r3.2.2 ++ r4.2.2)

/-- `LighterWebSocketClient.disconnect`: clear the connection flags, close
and drop the transport handle.  Does not touch `self.subscriptions`. -/
def disconnect (st : WSState) : WSState :=
  { st with connected := false, connecting := false, websocket := none }

/-- Outcome of one `connect()` attempt's interaction with the environment:
`websockets.connect` raising, the 5-second `wait_for` timing out, the first
frame not parsing as JSON, or a first frame with the given `type` field. -/
inductive HandshakeResult where
  | openError
  | timeout
  | badJson
  | frame (msgType : String)
deriving DecidableEq

/-- The `asyncio.wait_for` timeout (in seconds) used while waiting for the
handshake confirmation frame in `connect()`. -/
def handshake_timeout : Nat := 5

/-- `LighterWebSocketClient.connect`: no-op if already connected or
connecting; otherwise open the transport, await the confirmation frame, and
on success reset the reconnection counters and replay subscriptions
(`_resubscribe_all`).  Every failure path runs `disconnect()` and returns
`False`.  Returns (success, post-state, frames sent). -/
def connect (st : WSState) (hr : HandshakeResult) : Bool × WSState × List Msg :=
  if st.connected || st.connecting then (st.connected, st, [])
  else
    let st1 := { st with connecting := true, reconnecting := false }
    match hr with
    | HandshakeResult.openError => (false, disconnect st1, [])
    | HandshakeResult.timeout => (false, disconnect { st1 with websocket := some () }, [])
    | HandshakeResult.badJson => (false, disconnect { st1 with websocket := some () }, [])
    | HandshakeResult.frame t =>
      if t = "connected" then
        let st2 : WSState :=
          { st1 with
            websocket := some ()
            connected := true
            connecting := false
            reconnect_attempts := 0
            reconnect_delay := 1 }
        let r := resubscribeAll st2
        (true, r.1, r.2.1)
      else
        (false, disconnect { st1 with websocket := some () }, [])

/-- The exponential-backoff update after a failed attempt:
`self.reconnect_delay = min(self.reconnect_delay * 2, self.max_reconnect_delay)`. -/
def capDelay (st : WSState) : WSState :=
  { st with reconnect_delay := min (st.reconnect_delay * 2) st.max_reconnect_delay }

/-- The `while self.reconnect_attempts < self.max_reconnect_attempts` loop
of `_handle_disconnection`, with fuel for termination (the attempt counter
increases strictly on every continuing iteration, so any fuel exceeding
`max_reconnect_attempts - reconnect_attempts` is enough).  The list `hrs`
supplies the outcome of each `connect()` attempt (exhausted entries model
`websockets.connect` raising).  Returns (final state, recorded sleep delays
in order, whether reconnection succeeded). -/
def reconnectLoop : Nat → WSState → List HandshakeResult →
    WSState × List Nat × Bool
  | 0, st, _ => (st, [], false)
  | fuel + 1, st, hrs =>
    if st.reconnect_attempts < st.max_reconnect_attempts then
      let st1 := { st with reconnect_attempts := st.reconnect_attempts + 1 }
      let d := st1.reconnect_delay
      let c := connect st1 (hrs.headD HandshakeResult.openError)
      if c.1 then
        let s2 := c.2.1
        ({ s2 with reconnecting := false }, [d], true)
      else
        let r := reconnectLoop fuel (capDelay c.2.1) hrs.tail
        (r.1, d :: r.2.1, r.2.2)
    else
      ({ st with reconnecting := false }, [], false)

/-- `LighterWebSocketClient._handle_disconnection`: early-return if a
reconnection is already running, else run the bounded retry loop. -/
def handleDisconnection (st : WSState) (hrs : List HandshakeResult) :
    WSState × List Nat × Bool :=
  if st.reconnecting then (st, [], false)
  else
    reconnectLoop (st.max_reconnect_attempts - st.reconnect_attempts + 1)
      { st with reconnecting := true } hrs

/-- Split a list of characters at every occurrence of `c`
(Python `str.split(c)` semantics: `"a:b".split(":") = ["a","b"]`,
`":".split(":") = ["",""]`). -/
def splitOnChar (c : Char) : List Char → List (List Char)
  | [] => [[]]
  | x :: xs =>
    if x = c then [] :: splitOnChar c xs
    else
      match splitOnChar c xs with
      | [] => [[x]]
      | h :: t => (x :: h) :: t

/-- Python `c in s` for a single character. -/
def strContainsChar (s : String) (c : Char) : Bool := s.data.contains c

/-- Python `s.split(c)` for a single-character separator. -/
def strSplitOnChar (s : String) (c : Char) : List String :=
  (splitOnChar c s.data).map String.mk

/-- The channel-identifier extraction shared by every
`_handle_subscribed_*` / `_handle_update_*` handler:
`if ':' in channel: identifier = channel.split(':')[1]`. -/
def extract_channel_id (channel : String) : Option String :=
  if strContainsChar channel ':' then some ((strSplitOnChar channel ':').getD 1 "")
  else none

/-- The dispatch performed by a `_handle_update_*` (or
`_handle_subscribed_*`) handler on a frame whose `channel` field is
`channel`: the list of callbacks invoked, in order (each registered
callback is invoked once; a callback raising is logged and does not stop
delivery). -/
def dispatchUpdate (subs : Subscriptions) (ct : String) (channel : String) :
    List Callback :=
  match extract_channel_id channel with
  | none => []
  | some identifier => (innerLookup (subs.get ct) identifier).getD []

/-- The externally-triggered lifecycle events of claim C3: an explicit
`disconnect()` call, or an unexpected transport closure (the receive loop
observing `ConnectionClosed`: it sets `connected = False` and runs
`_handle_disconnection`, whose connect attempts' outcomes are `hrs`). -/
inductive LifecycleEvent where
  | evDisconnect
  | evTransportLoss (hrs : List HandshakeResult)

/-- Apply one lifecycle event to the client state. -/
def applyEvent (st : WSState) : LifecycleEvent → WSState
  | LifecycleEvent.evDisconnect => disconnect st
  | LifecycleEvent.evTransportLoss hrs =>
      (handleDisconnection { st with connected := false } hrs).1

/-- Run a sequence of lifecycle events. -/
def runEvents (st : WSState) : List LifecycleEvent → WSState
  | [] => st
  | e :: rest => runEvents (applyEvent st e) rest

/-- Subscription-registry preservation: every entry present in `s` is still
present in `s'` with its callback list intact (possibly extended at the
end, which is what reconnect-driven resubscription does). -/
def SubsPreserved (s s' : Subscriptions) : Prop :=
  ∀ ct identifier cbs, innerLookup (s.get ct) identifier = some cbs →
    ∃ extra, innerLookup (s'.get ct) identifier = some (cbs ++ extra)

/-- Whether a handshake outcome is the confirmation frame
`{"type": "connected"}` — the only outcome on which `connect()` succeeds
from a disconnected state. -/
def isConnectedFrame : HandshakeResult → Bool
  | HandshakeResult.frame t => t = "connected"
  | _ => false

/-- The delay sequence produced by the exponential backoff: starting from
`d`, each failed attempt doubles the delay, capped at `maxD`. -/
def backoffDelays : Nat → Nat → Nat → List Nat
  | 0, _, _ => []
  | k + 1, d, maxD => d :: backoffDelays k (min (d * 2) maxD) maxD

/-- The state after one failed iteration of the reconnection loop: attempt
counter incremented, connection flags cleared by the failing `connect()`
(which runs `disconnect()`), delay doubled and capped. -/
def failStep (st : WSState) : WSState :=
  { st with
    reconnect_attempts := st.reconnect_attempts + 1
    connected := false
    connecting := false
    reconnecting := false
    websocket := none
    reconnect_delay := min (st.reconnect_delay * 2) st.max_reconnect_delay }

/-- The `subscribe` calls that `_resubscribe_all` issues while walking one
channel type's identifier map: one call per entry with a non-empty callback
list, passing the first registered callback. -/
def callsOfList (ct : String) (l : List (String × List Callback)) :
    List (String × String × Callback) :=
  l.filterMap (fun p =>
    match p.2 with
    | [] => none
    | cb :: _ => some (ct, p.1, cb))

/-- The wire frame produced by one resubscription call. -/
def toSubMsg (c : String × String × Callback) : Msg :=
  Msg.subscribeMsg (c.1 ++ "/" ++ c.2.1)

/-- The identifier map after `_resubscribe_all` has walked it: every entry
with callbacks `cb :: rest` has its first callback `cb` appended again (by
the `subscribe` call made for it); empty entries are untouched. -/
def resubscribedList (l : List (String × List Callback)) :
    List (String × List Callback) :=
  l.map (fun e =>
    match e.2 with
    | [] => e
    | cb :: rest => (e.1, cb :: rest ++ [cb]))

/-- A small concrete client state used by the closed witnesses: connected,
with one order-book channel holding two callbacks and one with none. -/
def wsDemoState : WSState :=
  { initState with
    connected := true
    websocket := some ()
    subs := { Subscriptions.empty with
      order_book := [("1", [7, 8]), ("2", [])] } }

/-! ## The precision manager (`src/precision_manager.py`) -/

/-- A row of the `order_books()` bulk listing, as consumed by
`PrecisionManager` through `hasattr`/`getattr`: optional attributes are
`Option`-valued (`none` = attribute absent).  `market_id` is accessed
directly by the scans, so it is a plain field.  The numeric strings of the
API (`min_base_amount` etc.) are modelled as the exact rationals they
denote. -/
structure OrderBookEntry where
  symbol : Option String
  market_id : Int
  market_symbol : Option String
  market_type : Option String
  supported_price_decimals : Option Nat
  supported_size_decimals : Option Nat
  min_base_amount : Option ℚ
  min_quote_amount : Option ℚ
deriving DecidableEq

/-- The `order_book_details(market_id)` response consumed by
`_parse_market_details`. -/
structure OrderBookDetails where
  symbol : Option String
  market_id : Option Int
  base_asset : Option String
  quote_asset : Option String
  tick_size : Option String
  step_size : Option String
  min_order_size : Option ℚ
  min_notional_value : Option ℚ
deriving DecidableEq

/-- The market-info dictionary built by the parse/default functions of
`PrecisionManager`.  The fee/status/asset-id keys that
`_parse_market_info` additionally emits are omitted: no modelled operation
reads them. -/
structure MarketInfo where
  symbol : String
  market_id : Int
  base_asset : String
  quote_asset : String
  price_precision : Nat
  quantity_precision : Nat
  min_quantity : ℚ
  min_notional : ℚ
deriving DecidableEq

/-- Association-list lookup, modelling Python `dict.get`. -/
def alistLookup {α β : Type} [DecidableEq α] : List (α × β) → α → Option β
  | [], _ => none
  | (k, v) :: rest, key => if k = key then some v else alistLookup rest key

/-- Association-list assignment `d[key] = v` (update in place, or append a
fresh key at the end, as Python dicts do). -/
def alistInsert {α β : Type} [DecidableEq α] :
    List (α × β) → α → β → List (α × β)
  | [], key, v => [(key, v)]
  | (k, w) :: rest, key, v =>
      if k = key then (k, v) :: rest else (k, w) :: alistInsert rest key v

/-- The cache state of a `PrecisionManager` instance:
`_precision_cache` (market_id → market info) and
`_symbol_to_market_id`. -/
structure PMState where
  precision_cache : List (Int × MarketInfo)
  symbol_to_market_id : List (String × Int)
deriving DecidableEq

/-- The empty caches built by `PrecisionManager.__init__`. -/
def pmInit : PMState := ⟨[], []⟩

/-- The behaviour of the `OrderApi` collaborator during one
`get_market_info` call: `none` models the call raising. -/
structure ApiEnv where
  order_books : Option (List OrderBookEntry)
  order_book_details : Int → Option OrderBookDetails

/-- Python `str.rstrip('0')`. -/
def rstripZeros (s : String) : String :=
  String.mk (s.data.rdropWhile (fun c => c = '0'))

/-- `PrecisionManager._extract_precision`: the number of decimal digits of
a tick/step-size string after stripping trailing zeros
(`"0.0100"` → 2, `"1"` → 0). -/
def extract_precision (tick_size : String) : Nat :=
  if ¬ strContainsChar tick_size '.' then 0
  else (rstripZeros ((strSplitOnChar tick_size '.').getD 1 "")).length

/-- The per-symbol table of `_get_default_precision`:
symbol → (price precision, quantity precision). -/
def default_precisions : List (String × Nat × Nat) :=
  [("BTC-USDT", 2, 6), ("ETH-USDT", 2, 4), ("SOL-USDT", 3, 2)]

/-- `PrecisionManager._get_default_precision`: the hardcoded default Market
used when every lookup path fails, specialised by the small per-symbol
table.  `0.001` and `10.0` are the exact rationals `mkRat 1 1000` and
`10`. -/
def get_default_precision (symbol : String) : MarketInfo :=
  { symbol := symbol
    market_id := 0
    base_asset := (strSplitOnChar symbol '-').getD 0 symbol
    quote_asset :=
      if strContainsChar symbol '-' then (strSplitOnChar symbol '-').getD 1 ""
      else "USDT"
    price_precision := ((alistLookup default_precisions symbol).getD (2, 4)).1
    quantity_precision := ((alistLookup default_precisions symbol).getD (2, 4)).2
    min_quantity := mkRat 1 1000
    min_notional := 10 }

/-- `PrecisionManager._parse_market_info` (the keys the modelled operations
read; `spot` markets get quote asset `USDC`, the rest `USD`). -/
def parse_market_info (ob : OrderBookEntry) : MarketInfo :=
  { symbol := ob.symbol.getD "UNKNOWN"
    market_id := ob.market_id
    base_asset := ob.symbol.getD "UNKNOWN"
    quote_asset := if ob.market_type.getD "perp" = "spot" then "USDC" else "USD"
    price_precision := ob.supported_price_decimals.getD 2
    quantity_precision := ob.supported_size_decimals.getD 4
    min_quantity := ob.min_base_amount.getD (mkRat 1 1000)
    min_notional := ob.min_quote_amount.getD 10 }

/-- `PrecisionManager._parse_market_details`. -/
def parse_market_details (d : OrderBookDetails) : MarketInfo :=
  { symbol := d.symbol.getD "UNKNOWN"
    market_id := d.market_id.getD 0
    base_asset := d.base_asset.getD ""
    quote_asset := d.quote_asset.getD ""
    price_precision := extract_precision (d.tick_size.getD "0.01")
    quantity_precision := extract_precision (d.step_size.getD "0.001")
    min_quantity := d.min_order_size.getD (mkRat 1 1000)
    min_notional := d.min_notional_value.getD 10 }

/-- The scan for the first listing entry whose `symbol` attribute exists
and equals `symbol` (used for the exact and the base-symbol match of
`get_market_info`). -/
def find_market : List OrderBookEntry → String → Option OrderBookEntry
  | [], _ => none
  | ob :: rest, symbol =>
      if ob.symbol = some symbol then some ob else find_market rest symbol

/-- The per-entry scan of `_symbol_to_market_id_from_api`: an exact
`symbol` match, or a `market_symbol` attribute equal to `symbol` after
replacing `/` by `-`. -/
def scan_market_id : List OrderBookEntry → String → Option Int
  | [], _ => none
  | ob :: rest, symbol =>
      if ob.symbol = some symbol then some ob.market_id
      else
        match ob.market_symbol with
        | some ms =>
            if String.mk (ms.data.map (fun c => if c = '/' then '-' else c))
                = symbol then some ob.market_id
            else scan_market_id rest symbol
        | none => scan_market_id rest symbol

/-- `PrecisionManager._symbol_to_market_id_from_api` (its own `try`
returns `None` when the listing call raises). -/
def symbol_to_market_id_from_api (env : ApiEnv) (symbol : String) :
    Option Int :=
  match env.order_books with
  | none => none
  | some l => scan_market_id l symbol

/-- `symbol.split('-')[0] if '-' in symbol else symbol` — the fuzzy-match
fallback of `get_market_info`. -/
def base_symbol_of (symbol : String) : String :=
  if strContainsChar symbol '-' then (strSplitOnChar symbol '-').getD 0 symbol
  else symbol

/-- Store a successful lookup under both indices
(`_symbol_to_market_id[symbol] = market_id` then
`_precision_cache[market_id] = market_info`) and return the info. -/
def cacheStore (st : PMState) (symbol : String) (mid : Int)
    (mi : MarketInfo) : MarketInfo × PMState :=
  (mi, { precision_cache := alistInsert st.precision_cache mid mi
         symbol_to_market_id := alistInsert st.symbol_to_market_id symbol mid })

/-- The `try` block of `get_market_info` together with its `except`
handler: exact symbol scan, then base-symbol scan, then market-id
resolution plus a detail fetch; any failure — including the collaborator
raising — returns the hardcoded default without caching. -/
def get_market_info_fetch (st : PMState) (env : ApiEnv) (symbol : String) :
    MarketInfo × PMState :=
  match env.order_books with
  | none => (get_default_precision symbol, st)
  | some l =>
    match find_market l symbol with
    | some ob => cacheStore st symbol ob.market_id (parse_market_info ob)
    | none =>
      match find_market l (base_symbol_of symbol) with
      | some ob => cacheStore st symbol ob.market_id (parse_market_info ob)
      | none =>
        match symbol_to_market_id_from_api env symbol with
        | none => (get_default_precision symbol, st)
        | some mid =>
          match env.order_book_details mid with
          | none => (get_default_precision symbol, st)
          | some d => cacheStore st symbol mid (parse_market_details d)

/-- `PrecisionManager.get_market_info`: return the cached info when both
indices hit, otherwise run the fetch path. -/
def get_market_info (st : PMState) (env : ApiEnv) (symbol : String) :
    MarketInfo × PMState :=
  match alistLookup st.symbol_to_market_id symbol with
  | some mid =>
    match alistLookup st.precision_cache mid with
    | some mi => (mi, st)
    | none => get_market_info_fetch st env symbol
  | none => get_market_info_fetch st env symbol

/-- The market resolution shared by `format_price`, `format_quantity` and
`adjust_to_tick_size`:
`self._precision_cache.get(self._symbol_to_market_id.get(symbol, 0),
self._get_default_precision(symbol))`. -/
def resolve_market (st : PMState) (symbol : String) : MarketInfo :=
  (alistLookup st.precision_cache
      ((alistLookup st.symbol_to_market_id symbol).getD 0)).getD
    (get_default_precision symbol)

/-- Python's `round` builtin on an exact rational: nearest integer, ties
to the even integer (banker's rounding).  Computed from `Rat.num` and
`Rat.den` with Euclidean division (`/` and `%` on `ℤ`) so that concrete
instances evaluate by kernel reduction. -/
def pyRound (q : ℚ) : ℤ :=
  if 2 * (q.num % (q.den : ℤ)) < (q.den : ℤ) then q.num / (q.den : ℤ)
  else if ((q.den : ℤ)) < 2 * (q.num % (q.den : ℤ)) then q.num / (q.den : ℤ) + 1
  else if Even (q.num / (q.den : ℤ)) then q.num / (q.den : ℤ)
  else q.num / (q.den : ℤ) + 1

/-- `⌊q⌋` computed from `Rat.num`/`Rat.den` (kernel-computable). -/
def ratFloor (q : ℚ) : ℤ := q.num / (q.den : ℤ)

/-- The rounding described by the spec's words for `adjust_to_tick_size`:
"standard rounding", halves rounded up, i.e. `⌊q + 1/2⌋`.  Modelled from
the spec, for comparison with the code's `pyRound`. -/
def roundHalfUp (q : ℚ) : ℤ := ratFloor (q + mkRat 1 2)

/-- The decimal digit characters. -/
def digitChars : List Char := ['0', '1', '2', '3', '4', '5', '6', '7', '8', '9']

/-- Decimal digits of a natural number, most significant first, with fuel
for structural recursion (any fuel exceeding `n` is enough). -/
def natDigitsAux : Nat → Nat → List Char
  | 0, _ => []
  | fuel + 1, n =>
      if n < 10 then [Nat.digitChar n]
      else natDigitsAux fuel (n / 10) ++ [Nat.digitChar (n % 10)]

/-- Decimal rendering of a natural number (`natDigits 0 = ['0']`). -/
def natDigits (n : Nat) : List Char := natDigitsAux (n + 1) n

/-- Left-pad a digit string with zeros to the given width. -/
def padZeros (l : List Char) (width : Nat) : List Char :=
  List.replicate (width - l.length) '0' ++ l

/-- `f"{q:.{prec}f}"`: fixed-point decimal rendering of a (model) float.
Python renders the value rounded to `prec` decimal places — the integer
`pyRound (q·10^prec)` — with the fraction part zero-padded to width
`prec`. -/
def formatFixed (q : ℚ) (prec : Nat) : List Char :=
  if prec = 0 then
    (if pyRound q < 0 then ['-'] else []) ++ natDigits (pyRound q).natAbs
  else
    (if pyRound (q * (10 : ℚ) ^ prec) < 0 then ['-'] else [])
      ++ natDigits ((pyRound (q * (10 : ℚ) ^ prec)).natAbs / 10 ^ prec)
      ++ ['.']
      ++ padZeros (natDigits ((pyRound (q * (10 : ℚ) ^ prec)).natAbs % 10 ^ prec)) prec

/-- `formatted.rstrip('0').rstrip('.') if '.' in formatted else formatted`. -/
def stripTrailing (l : List Char) : List Char :=
  if '.' ∈ l then (l.rdropWhile (fun c => c = '0')).rdropWhile (fun c => c = '.')
  else l

/-- `PrecisionManager.format_price`. -/
def format_price (st : PMState) (price : ℚ) (symbol : String) : String :=
  String.mk (stripTrailing
    (formatFixed price (resolve_market st symbol).price_precision))

/-- `PrecisionManager.format_quantity`: quantities below `min_quantity`
are raised to `min_quantity` before formatting. -/
def format_quantity (st : PMState) (quantity : ℚ) (symbol : String) : String :=
  String.mk (stripTrailing
    (formatFixed
      (if quantity < (resolve_market st symbol).min_quantity
       then (resolve_market st symbol).min_quantity else quantity)
      (resolve_market st symbol).quantity_precision))

/-- `PrecisionManager.adjust_to_tick_size`:
`round(price * 10**price_precision) / 10**price_precision`, a numeric
value. -/
def adjust_to_tick_size (st : PMState) (price : ℚ) (symbol : String) : ℚ :=
  (pyRound (price * (10 : ℚ) ^ (resolve_market st symbol).price_precision) : ℚ)
    / (10 : ℚ) ^ (resolve_market st symbol).price_precision

/-- What the spec's sentence describes for `adjust_to_tick_size`: the
nearest multiple of `10^(-price_precision)` under standard half-up
rounding.  Modelled from the spec, for the C9 comparison. -/
def adjust_to_tick_size_spec (st : PMState) (price : ℚ) (symbol : String) : ℚ :=
  (roundHalfUp (price * (10 : ℚ) ^ (resolve_market st symbol).price_precision) : ℚ)
    / (10 : ℚ) ^ (resolve_market st symbol).price_precision

/-- The number of characters after the (first) decimal point of a rendered
string. -/
def digitsAfterDot (l : List Char) : Nat :=
  ((l.dropWhile (fun c => ¬ c = '.')).drop 1).length

/-- A one-entry listing environment for the closed witnesses: only market
`"BTC"` exists, and detail fetches raise. -/
def pmDemoEnv : ApiEnv :=
  { order_books := some
      [{ symbol := some "BTC"
         market_id := 1
         market_symbol := none
         market_type := some "perp"
         supported_price_decimals := some 1
         supported_size_decimals := some 4
         min_base_amount := some (mkRat 1 10000)
         min_quote_amount := some 10 }]
    order_book_details := fun _ => none }

lemma connect_of_fail (st : WSState) (hr : HandshakeResult)
    (hc : st.connected = false) (hg : st.connecting = false)
    (hhr : isConnectedFrame hr = false) :
    connect st hr =
      (false,
       { st with connected := false, connecting := false,
                 reconnecting := false, websocket := none }, []) := by
  cases hr with
  | openError => simp [connect, disconnect, hc, hg]
  | timeout => simp [connect, disconnect, hc, hg]
  | badJson => simp [connect, disconnect, hc, hg]
  | frame t =>
      have ht : ¬ t = "connected" := by
        simpa [isConnectedFrame] using hhr
      simp [connect, disconnect, hc, hg, ht]

lemma reconnectLoop_succ_fail (fuel : Nat) (st : WSState)
    (hrs : List HandshakeResult)
    (hguard : st.reconnect_attempts < st.max_reconnect_attempts)
    (hc : st.connected = false) (hg : st.connecting = false)
    (hfail : isConnectedFrame (hrs.headD HandshakeResult.openError) = false) :
    reconnectLoop (fuel + 1) st hrs
      = ((reconnectLoop fuel (failStep st) hrs.tail).1,
         st.reconnect_delay :: (reconnectLoop fuel (failStep st) hrs.tail).2.1,
         (reconnectLoop fuel (failStep st) hrs.tail).2.2) := by
  have hconn := connect_of_fail
    { st with reconnect_attempts := st.reconnect_attempts + 1 }
    (hrs.headD HandshakeResult.openError) hc hg hfail
  simp only [reconnectLoop, if_pos hguard, hconn]
  simp [failStep, capDelay]

lemma reconnectLoop_guard_done (fuel : Nat) (st : WSState)
    (hrs : List HandshakeResult)
    (hguard : ¬ st.reconnect_attempts < st.max_reconnect_attempts) :
    reconnectLoop (fuel + 1) st hrs
      = ({ st with reconnecting := false }, [], false) := by
  simp [reconnectLoop, hguard]

lemma reconnectLoop_allFail :
    ∀ (k fuel : Nat) (st : WSState) (hrs : List HandshakeResult),
      (∀ hr ∈ hrs, isConnectedFrame hr = false) →
      st.connected = false → st.connecting = false →
      st.max_reconnect_attempts = st.reconnect_attempts + k →
      k < fuel →
      (reconnectLoop fuel st hrs).2.1
          = backoffDelays k st.reconnect_delay st.max_reconnect_delay
        ∧ (reconnectLoop fuel st hrs).2.2 = false
        ∧ (reconnectLoop fuel st hrs).1.reconnect_attempts
            = st.reconnect_attempts + k
        ∧ (reconnectLoop fuel st hrs).1.reconnecting = false := by
  intro k
  induction k with
  | zero =>
    intro fuel st hrs _ _ _ hmax hfuel
    match fuel, hfuel with
    | fuel + 1, _ =>
      have hguard : ¬ st.reconnect_attempts < st.max_reconnect_attempts := by omega
      rw [reconnectLoop_guard_done fuel st hrs hguard]
      simp [backoffDelays]
  | succ k ih =>
    intro fuel st hrs hall hc hg hmax hfuel
    match fuel, hfuel with
    | fuel + 1, hfuel =>
      have hguard : st.reconnect_attempts < st.max_reconnect_attempts := by omega
      have hfail : isConnectedFrame (hrs.headD HandshakeResult.openError) = false := by
        cases hrs with
        | nil => rfl
        | cons a l => exact hall a (List.mem_cons_self a l)
      have htail : ∀ hr ∈ hrs.tail, isConnectedFrame hr = false := by
        cases hrs with
        | nil => intro hr h; cases h
        | cons a l => intro hr h; exact hall hr (List.mem_cons_of_mem a h)
      rw [reconnectLoop_succ_fail fuel st hrs hguard hc hg hfail]
      obtain ⟨h1, h2, h3, h4⟩ := ih fuel (failStep st) hrs.tail htail rfl rfl
        (by simp [failStep]; omega) (by omega)
      refine ⟨?_, h2, ?_, h4⟩
      · simp only [h1]
        simp [failStep, backoffDelays]
      · simp only [h3]
        simp [failStep]
        omega

/-- C1: a reconnection routine started after an unexpected transport
closure (attempt counter 0, delay 1 s, not already reconnecting) in which
every `connect()` call fails sleeps exactly 1, 2, 4, 8, 16 seconds before
its successive attempts, makes exactly 5 attempts, and then terminates as a
fatal failure (no success, loop exited, `reconnecting` cleared). -/
theorem C1_reconnect_backoff (st : WSState) (hrs : List HandshakeResult)
    (hall : ∀ hr ∈ hrs, isConnectedFrame hr = false)
    (hc : st.connected = false) (hg : st.connecting = false)
    (hr0 : st.reconnecting = false)
    (ha : st.reconnect_attempts = 0) (hd : st.reconnect_delay = 1)
    (hm : st.max_reconnect_attempts = 5) (hmd : st.max_reconnect_delay = 30) :
    (handleDisconnection st hrs).2.1 = [1, 2, 4, 8, 16]
    ∧ (handleDisconnection st hrs).2.2 = false
    ∧ (handleDisconnection st hrs).1.reconnect_attempts = 5
    ∧ (handleDisconnection st hrs).1.reconnecting = false := by
  have h := reconnectLoop_allFail 5 (st.max_reconnect_attempts - st.reconnect_attempts + 1)
    { st with reconnecting := true } hrs hall hc hg (by simp [hm, ha]) (by omega)
  simp only [handleDisconnection, hr0, Bool.false_eq_true, if_false]
  refine ⟨?_, h.2.1, ?_, h.2.2.2⟩
  · rw [h.1]; simp [hd, hmd]; decide
  · rw [h.2.2.1]; simp [ha]

/-- Closed witness for C1 at a concrete initial state and five failing
connect outcomes of different kinds. -/
theorem C1_reconnect_backoff_witness :
    (handleDisconnection initState
        [HandshakeResult.openError, HandshakeResult.timeout,
         HandshakeResult.badJson, HandshakeResult.frame "ping",
         HandshakeResult.openError]).2.1 = [1, 2, 4, 8, 16]
    ∧ (handleDisconnection initState
        [HandshakeResult.openError, HandshakeResult.timeout,
         HandshakeResult.badJson, HandshakeResult.frame "ping",
         HandshakeResult.openError]).2.2 = false
    ∧ (handleDisconnection initState
        [HandshakeResult.openError, HandshakeResult.timeout,
         HandshakeResult.badJson, HandshakeResult.frame "ping",
         HandshakeResult.openError]).1.reconnect_attempts = 5
    ∧ (handleDisconnection initState
        [HandshakeResult.openError, HandshakeResult.timeout,
         HandshakeResult.badJson, HandshakeResult.frame "ping",
         HandshakeResult.openError]).1.reconnecting = false :=
  C1_reconnect_backoff initState _ (by decide) rfl rfl rfl rfl rfl rfl rfl

/-- C4: `subscribe` with an unrecognized channel type raises
`WebSocketClientError` (the spec's `SubscriptionError`), performs no
transport send, and leaves the registry (whole state) unchanged, whatever
the connection state. -/
theorem C4_subscribe_invalid_type (st : WSState) (sendOk : Bool)
    (ct identifier : String) (cb : Callback)
    (hct : validChannelType ct = false) :
    (subscribe st sendOk ct identifier cb).outcome
        = Outcome.raised ("unsupported channel type: " ++ ct)
    ∧ (subscribe st sendOk ct identifier cb).state = st
    ∧ (subscribe st sendOk ct identifier cb).sent = [] := by
  simp [subscribe, hct]

/-- Closed witness for C4: subscribing to `"depth"` on a fresh
(disconnected) client. -/
theorem C4_subscribe_invalid_type_witness :
    (subscribe initState true "depth" "1" 0).outcome
        = Outcome.raised ("unsupported channel type: " ++ "depth")
    ∧ (subscribe initState true "depth" "1" 0).state = initState
    ∧ (subscribe initState true "depth" "1" 0).sent = [] :=
  C4_subscribe_invalid_type initState true "depth" "1" 0 (by decide)

/-- C5: a `connect()` call made while disconnected whose handshake does not
produce a `"connected"` frame within the 5-second timeout (or fails in any
other way) returns failure, tears the transport handle down to `none`, and
leaves the connection state disconnected. -/
theorem C5_connect_failure (st : WSState) (hr : HandshakeResult)
    (hc : st.connected = false) (hg : st.connecting = false)
    (hhr : isConnectedFrame hr = false) :
    (connect st hr).1 = false
    ∧ (connect st hr).2.1.websocket = none
    ∧ (connect st hr).2.1.connected = false
    ∧ (connect st hr).2.1.connecting = false
    ∧ handshake_timeout = 5 := by
  rw [connect_of_fail st hr hc hg hhr]
  exact ⟨rfl, rfl, rfl, rfl, rfl⟩

/-- Closed witness for C5: a handshake timeout on a fresh client. -/
theorem C5_connect_failure_witness :
    (connect initState HandshakeResult.timeout).1 = false
    ∧ (connect initState HandshakeResult.timeout).2.1.websocket = none
    ∧ (connect initState HandshakeResult.timeout).2.1.connected = false
    ∧ (connect initState HandshakeResult.timeout).2.1.connecting = false
    ∧ handshake_timeout = 5 :=
  C5_connect_failure initState HandshakeResult.timeout rfl rfl rfl

lemma subsPreserved_refl (s : Subscriptions) : SubsPreserved s s :=
  fun _ _ cbs h => ⟨[], by simpa using h⟩

lemma subsPreserved_trans {a b c : Subscriptions}
    (h1 : SubsPreserved a b) (h2 : SubsPreserved b c) : SubsPreserved a c := by
  intro ct identifier cbs h
  obtain ⟨e1, hb⟩ := h1 ct identifier cbs h
  obtain ⟨e2, hc⟩ := h2 ct identifier _ hb
  exact ⟨e1 ++ e2, by simpa [List.append_assoc] using hc⟩

lemma innerLookup_innerAppend_self (l : List (String × List Callback))
    (identifier : String) (cb : Callback) (cbs : List Callback)
    (h : innerLookup l identifier = some cbs) :
    innerLookup (innerAppend l identifier cb) identifier = some (cbs ++ [cb]) := by
  induction l with
  | nil => simp [innerLookup] at h
  | cons p rest ih =>
    obtain ⟨k, v⟩ := p
    by_cases hk : k = identifier
    · subst hk
      simp [innerLookup] at h
      simp [innerAppend, innerLookup, h]
    · simp [innerLookup, hk] at h
      simp [innerAppend, innerLookup, hk, ih h]

lemma innerLookup_innerAppend_ne (l : List (String × List Callback))
    (id0 identifier : String) (cb : Callback) (hne : id0 ≠ identifier) :
    innerLookup (innerAppend l id0 cb) identifier = innerLookup l identifier := by
  induction l with
  | nil => simp [innerAppend, innerLookup, hne]
  | cons p rest ih =>
    obtain ⟨k, v⟩ := p
    by_cases hk : k = id0
    · subst hk
      simp [innerAppend, innerLookup, hne]
    · by_cases hk2 : k = identifier
      · subst hk2
        simp [innerAppend, innerLookup, hk]
      · simp [innerAppend, innerLookup, hk, hk2, ih]

lemma exists_innerLookup_of_cases (fld newFld : List (String × List Callback))
    (id0 identifier : String) (cb : Callback) (cbs : List Callback)
    (h : innerLookup fld identifier = some cbs)
    (hd : newFld = fld ∨ newFld = innerAppend fld id0 cb) :
    ∃ extra, innerLookup newFld identifier = some (cbs ++ extra) := by
  rcases hd with rfl | rfl
  · exact ⟨[], by simpa using h⟩
  · by_cases hid : id0 = identifier
    · subst hid
      exact ⟨[cb], innerLookup_innerAppend_self fld id0 cb cbs h⟩
    · exact ⟨[], by simpa [innerLookup_innerAppend_ne fld id0 identifier cb hid] using h⟩

lemma append_field_cases (s : Subscriptions) (ct0 id0 : String) (cb : Callback) :
    ((s.append ct0 id0 cb).order_book = s.order_book
        ∨ (s.append ct0 id0 cb).order_book = innerAppend s.order_book id0 cb)
    ∧ ((s.append ct0 id0 cb).trade = s.trade
        ∨ (s.append ct0 id0 cb).trade = innerAppend s.trade id0 cb)
    ∧ ((s.append ct0 id0 cb).account_all = s.account_all
        ∨ (s.append ct0 id0 cb).account_all = innerAppend s.account_all id0 cb)
    ∧ ((s.append ct0 id0 cb).ticker = s.ticker
        ∨ (s.append ct0 id0 cb).ticker = innerAppend s.ticker id0 cb) := by
  unfold Subscriptions.append Subscriptions.set Subscriptions.get
  split_ifs <;> simp

lemma subsPreserved_append (s : Subscriptions) (ct0 id0 : String)
    (cb : Callback) : SubsPreserved s (s.append ct0 id0 cb) := by
  intro ct identifier cbs h
  obtain ⟨h1, h2, h3, h4⟩ := append_field_cases s ct0 id0 cb
  unfold Subscriptions.get at h ⊢
  split_ifs at h ⊢
  · exact exists_innerLookup_of_cases _ _ id0 identifier cb cbs h h1
  · exact exists_innerLookup_of_cases _ _ id0 identifier cb cbs h h2
  · exact exists_innerLookup_of_cases _ _ id0 identifier cb cbs h h3
  · exact exists_innerLookup_of_cases _ _ id0 identifier cb cbs h h4
  · simp [innerLookup] at h

lemma subsPreserved_subscribe (st : WSState) (sendOk : Bool)
    (ct0 id0 : String) (cb : Callback) :
    SubsPreserved st.subs (subscribe st sendOk ct0 id0 cb).state.subs := by
  unfold subscribe
  split_ifs <;> first
    | exact subsPreserved_refl _
    | exact subsPreserved_append st.subs ct0 id0 cb

lemma subsPreserved_resubscribeInner (ct : String) :
    ∀ (l : List (String × List Callback)) (st : WSState),
      SubsPreserved st.subs (resubscribeInner st ct l).1.subs := by
  intro l
  induction l with
  | nil => intro st; exact subsPreserved_refl _
  | cons p rest ih =>
    intro st
    obtain ⟨identifier, cbs⟩ := p
    cases cbs with
    | nil => simpa [resubscribeInner] using ih st
    | cons cb cbtail =>
      simp only [resubscribeInner]
      exact subsPreserved_trans
        (subsPreserved_subscribe st true ct identifier cb)
        (ih (subscribe st true ct identifier cb).state)

lemma subsPreserved_resubscribeAll (st : WSState) :
    SubsPreserved st.subs (resubscribeAll st).1.subs := by
  unfold resubscribeAll
  exact subsPreserved_trans (subsPreserved_resubscribeInner _ _ st)
    (subsPreserved_trans (subsPreserved_resubscribeInner _ _ _)
      (subsPreserved_trans (subsPreserved_resubscribeInner _ _ _)
        (subsPreserved_resubscribeInner _ _ _)))

lemma subs_disconnect (st : WSState) : (disconnect st).subs = st.subs := rfl

lemma subsPreserved_connect (st : WSState) (hr : HandshakeResult) :
    SubsPreserved st.subs (connect st hr).2.1.subs := by
  cases hr with
  | openError =>
    simp only [connect]
    split_ifs <;> exact subsPreserved_refl _
  | timeout =>
    simp only [connect]
    split_ifs <;> exact subsPreserved_refl _
  | badJson =>
    simp only [connect]
    split_ifs <;> exact subsPreserved_refl _
  | frame t =>
    simp only [connect]
    split_ifs with h1 h2
    · exact subsPreserved_refl _
    · exact subsPreserved_resubscribeAll
        { connected := true, connecting := false, reconnecting := false,
          websocket := some (), subs := st.subs,
          reconnect_attempts := 0,
          max_reconnect_attempts := st.max_reconnect_attempts,
          reconnect_delay := 1,
          max_reconnect_delay := st.max_reconnect_delay }
    · exact subsPreserved_refl _

lemma subsPreserved_reconnectLoop :
    ∀ (fuel : Nat) (st : WSState) (hrs : List HandshakeResult),
      SubsPreserved st.subs (reconnectLoop fuel st hrs).1.subs := by
  intro fuel
  induction fuel with
  | zero => intro st hrs; exact subsPreserved_refl _
  | succ fuel ih =>
    intro st hrs
    simp only [reconnectLoop]
    split_ifs with h1 h2
    · exact subsPreserved_connect
        { st with reconnect_attempts := st.reconnect_attempts + 1 }
        (hrs.headD HandshakeResult.openError)
    · exact subsPreserved_trans
        (subsPreserved_connect
          { st with reconnect_attempts := st.reconnect_attempts + 1 }
          (hrs.headD HandshakeResult.openError))
        (ih (capDelay (connect
              { st with reconnect_attempts := st.reconnect_attempts + 1 }
              (hrs.headD HandshakeResult.openError)).2.1) hrs.tail)
    · exact subsPreserved_refl _

lemma subsPreserved_handleDisconnection (st : WSState)
    (hrs : List HandshakeResult) :
    SubsPreserved st.subs (handleDisconnection st hrs).1.subs := by
  unfold handleDisconnection
  split_ifs
  · exact subsPreserved_refl _
  · exact subsPreserved_reconnectLoop
      (st.max_reconnect_attempts - st.reconnect_attempts + 1)
      { st with reconnecting := true } hrs

lemma subsPreserved_applyEvent (st : WSState) (e : LifecycleEvent) :
    SubsPreserved st.subs (applyEvent st e).subs := by
  cases e with
  | evDisconnect => exact subsPreserved_refl _
  | evTransportLoss hrs =>
    exact subsPreserved_handleDisconnection { st with connected := false } hrs

/-- C3: neither explicit `disconnect()` nor unexpected transport closures
(with their ensuing reconnection attempts) remove any subscription entry or
registered callback: `disconnect` leaves the registry exactly unchanged,
and after any sequence of disconnects and transport losses every entry
present before is still present with its original callback list as a
prefix (reconnect-driven resubscription can only append). -/
theorem C3_subscriptions_persist (st : WSState) (events : List LifecycleEvent) :
    (disconnect st).subs = st.subs
    ∧ SubsPreserved st.subs (runEvents st events).subs := by
  refine ⟨subs_disconnect st, ?_⟩
  induction events generalizing st with
  | nil => exact subsPreserved_refl _
  | cons e rest ih =>
    exact subsPreserved_trans (subsPreserved_applyEvent st e) (ih (applyEvent st e))

/-- Closed witness for C3: a registered ticker subscription survives a
disconnect followed by a transport loss with two failed reconnect
attempts and one successful one. -/
theorem C3_subscriptions_persist_witness :
    ∃ extra,
      innerLookup
        ((runEvents
            { initState with
              connected := true
              websocket := some ()
              subs := { Subscriptions.empty with ticker := [("BTC", [5])] } }
            [LifecycleEvent.evDisconnect,
             LifecycleEvent.evTransportLoss
               [HandshakeResult.timeout, HandshakeResult.openError,
                HandshakeResult.frame "connected"]]).subs.get "ticker")
        "BTC" = some ([5] ++ extra) :=
  (C3_subscriptions_persist
      { initState with
        connected := true
        websocket := some ()
        subs := { Subscriptions.empty with ticker := [("BTC", [5])] } }
      [LifecycleEvent.evDisconnect,
       LifecycleEvent.evTransportLoss
         [HandshakeResult.timeout, HandshakeResult.openError,
          HandshakeResult.frame "connected"]]).2
    "ticker" "BTC" [5] (by decide)

lemma validChannelType_cases (ct : String) (h : validChannelType ct = true) :
    ct = "order_book" ∨ ct = "trade" ∨ ct = "account_all" ∨ ct = "ticker" := by
  simp only [validChannelType, Bool.or_eq_true, decide_eq_true_eq] at h
  tauto

lemma get_order_book (s : Subscriptions) : s.get "order_book" = s.order_book := rfl

lemma get_trade (s : Subscriptions) : s.get "trade" = s.trade := rfl

lemma get_account_all (s : Subscriptions) : s.get "account_all" = s.account_all := rfl

lemma get_ticker (s : Subscriptions) : s.get "ticker" = s.ticker := rfl

lemma get_set_ne (s : Subscriptions) (ct0 ct : String)
    (l : List (String × List Callback)) (hne : ct ≠ ct0) :
    (s.set ct0 l).get ct = s.get ct := by
  unfold Subscriptions.set Subscriptions.get
  split_ifs <;> simp_all

lemma get_set_self (s : Subscriptions) (ct : String)
    (l : List (String × List Callback)) (hct : validChannelType ct = true) :
    (s.set ct l).get ct = l := by
  rcases validChannelType_cases ct hct with rfl | rfl | rfl | rfl <;> rfl

lemma subscribe_connected (st : WSState) (sendOk : Bool) (ct identifier : String)
    (cb : Callback) :
    (subscribe st sendOk ct identifier cb).state.connected = st.connected := by
  unfold subscribe
  split_ifs <;> rfl

lemma subscribe_subs_ne (st : WSState) (sendOk : Bool) (ct identifier : String)
    (cb : Callback) (ct' : String) (hne : ct' ≠ ct) :
    (subscribe st sendOk ct identifier cb).state.subs.get ct' = st.subs.get ct' := by
  unfold subscribe
  split_ifs <;> first
    | rfl
    | exact get_set_ne st.subs ct ct' (innerAppend (st.subs.get ct) identifier cb) hne

lemma subscribe_success (st : WSState) (ct identifier : String) (cb : Callback)
    (hct : validChannelType ct = true) (hc : st.connected = true) :
    subscribe st true ct identifier cb =
      { outcome := Outcome.returned true
        state := { st with subs := st.subs.append ct identifier cb }
        sent := [Msg.subscribeMsg (ct ++ "/" ++ identifier)] } := by
  simp [subscribe, hct, hc]

lemma resubscribeInner_connected (ct : String) :
    ∀ (l : List (String × List Callback)) (st : WSState),
      (resubscribeInner st ct l).1.connected = st.connected := by
  intro l
  induction l with
  | nil => intro st; rfl
  | cons p rest ih =>
    intro st
    obtain ⟨identifier, cbs⟩ := p
    cases cbs with
    | nil => simpa [resubscribeInner] using ih st
    | cons cb tl =>
      simp only [resubscribeInner]
      rw [ih ((subscribe st true ct identifier cb).state)]
      exact subscribe_connected st true ct identifier cb

lemma resubscribeInner_subs_ne (ct : String) :
    ∀ (l : List (String × List Callback)) (st : WSState) (ct' : String),
      ct' ≠ ct →
      (resubscribeInner st ct l).1.subs.get ct' = st.subs.get ct' := by
  intro l
  induction l with
  | nil => intro st ct' _; rfl
  | cons p rest ih =>
    intro st ct' hne
    obtain ⟨identifier, cbs⟩ := p
    cases cbs with
    | nil => simpa [resubscribeInner] using ih st ct' hne
    | cons cb tl =>
      simp only [resubscribeInner]
      rw [ih ((subscribe st true ct identifier cb).state) ct' hne]
      exact subscribe_subs_ne st true ct identifier cb ct' hne

lemma resubscribeInner_trace (ct : String) (hct : validChannelType ct = true) :
    ∀ (l : List (String × List Callback)) (st : WSState), st.connected = true →
      (resubscribeInner st ct l).2.2 = callsOfList ct l
      ∧ (resubscribeInner st ct l).2.1 = (callsOfList ct l).map toSubMsg := by
  intro l
  induction l with
  | nil => intro st _; exact ⟨rfl, rfl⟩
  | cons p rest ih =>
    intro st hc
    obtain ⟨identifier, cbs⟩ := p
    cases cbs with
    | nil =>
      simpa [resubscribeInner, callsOfList, List.filterMap_cons] using ih st hc
    | cons cb tl =>
      have hs := subscribe_success st ct identifier cb hct hc
      have hc' : (subscribe st true ct identifier cb).state.connected = true := by
        rw [subscribe_connected]; exact hc
      obtain ⟨h1, h2⟩ := ih ((subscribe st true ct identifier cb).state) hc'
      refine ⟨?_, ?_⟩
      · simp only [resubscribeInner]
        simp [callsOfList, List.filterMap_cons, h1]
      · simp only [resubscribeInner]
        rw [h2, hs]
        simp [callsOfList, List.filterMap_cons, toSubMsg]

lemma innerAppend_append_left (done rest : List (String × List Callback))
    (identifier : String) (cb : Callback)
    (hnot : identifier ∉ done.map Prod.fst) :
    innerAppend (done ++ rest) identifier cb
      = done ++ innerAppend rest identifier cb := by
  induction done with
  | nil => rfl
  | cons p dtl ih =>
    obtain ⟨k, v⟩ := p
    simp only [List.map_cons, List.mem_cons] at hnot
    push_neg at hnot
    have hk : ¬ k = identifier := fun h => hnot.1 h.symm
    simp [innerAppend, hk, ih hnot.2]

lemma resubscribeInner_subs_self (ct : String) (hct : validChannelType ct = true) :
    ∀ (l done : List (String × List Callback)) (st : WSState),
      st.connected = true →
      st.subs.get ct = done ++ l →
      (l.map Prod.fst).Nodup →
      (∀ k ∈ done.map Prod.fst, k ∉ l.map Prod.fst) →
      (resubscribeInner st ct l).1.subs.get ct = done ++ resubscribedList l := by
  intro l
  induction l with
  | nil =>
    intro done st _ heq _ _
    simpa [resubscribedList] using heq
  | cons p rest ih =>
    intro done st hc heq hnodup hdisj
    obtain ⟨identifier, cbs⟩ := p
    have hpair := List.nodup_cons.mp
      (show (identifier :: rest.map Prod.fst).Nodup by simpa using hnodup)
    have hid_rest : identifier ∉ rest.map Prod.fst := hpair.1
    have hnodup' : (rest.map Prod.fst).Nodup := hpair.2
    have hid_done : identifier ∉ done.map Prod.fst := by
      intro hmem
      exact (hdisj identifier hmem) (by simp)
    cases cbs with
    | nil =>
      have heq' : st.subs.get ct
          = (done ++ [(identifier, ([] : List Callback))]) ++ rest := by
        simpa [List.append_assoc] using heq
      have hdisj' : ∀ k ∈ (done ++ [(identifier, ([] : List Callback))]).map Prod.fst,
          k ∉ rest.map Prod.fst := by
        intro k hk
        simp only [List.map_append, List.mem_append] at hk
        rcases hk with hk | hk
        · exact fun hmem => (hdisj k hk) (by simp [hmem])
        · simp only [List.map_cons, List.map_nil, List.mem_singleton] at hk
          subst hk
          exact hid_rest
      have hres := ih (done ++ [(identifier, [])]) st hc heq' hnodup' hdisj'
      simp only [resubscribeInner]
      rw [hres]
      simp [resubscribedList, List.append_assoc]
    | cons cb tl =>
      have hs := subscribe_success st ct identifier cb hct hc
      have hget : (subscribe st true ct identifier cb).state.subs.get ct
          = (done ++ [(identifier, cb :: tl ++ [cb])]) ++ rest := by
        rw [hs]
        show (st.subs.append ct identifier cb).get ct = _
        unfold Subscriptions.append
        rw [get_set_self st.subs ct _ hct, heq,
          innerAppend_append_left done _ identifier cb hid_done]
        simp [innerAppend, List.append_assoc]
      have hc' : (subscribe st true ct identifier cb).state.connected = true := by
        rw [subscribe_connected]; exact hc
      have hdisj' : ∀ k ∈ (done ++ [(identifier, cb :: tl ++ [cb])]).map Prod.fst,
          k ∉ rest.map Prod.fst := by
        intro k hk
        simp only [List.map_append, List.mem_append] at hk
        rcases hk with hk | hk
        · exact fun hmem => (hdisj k hk) (by simp [hmem])
        · simp only [List.map_cons, List.map_nil, List.mem_singleton] at hk
          subst hk
          exact hid_rest
      have hres := ih (done ++ [(identifier, cb :: tl ++ [cb])])
        ((subscribe st true ct identifier cb).state) hc' hget hnodup' hdisj'
      simp only [resubscribeInner]
      rw [hres]
      simp [resubscribedList, List.append_assoc]

lemma innerLookup_mem {l : List (String × List Callback)} {identifier : String}
    {cbs : List Callback} (h : innerLookup l identifier = some cbs) :
    (identifier, cbs) ∈ l := by
  induction l with
  | nil => simp [innerLookup] at h
  | cons p rest ih =>
    obtain ⟨k, v⟩ := p
    by_cases hk : k = identifier
    · subst hk
      have hv : v = cbs := by simpa [innerLookup] using h
      subst hv
      simp
    · have h' : innerLookup rest identifier = some cbs := by
        simpa [innerLookup, hk] using h
      exact List.mem_cons_of_mem _ (ih h')

lemma mem_callsOfList {c : String × String × Callback} {ct : String}
    {l : List (String × List Callback)} (h : c ∈ callsOfList ct l) :
    c.1 = ct ∧ c.2.1 ∈ l.map Prod.fst := by
  unfold callsOfList at h
  rw [List.mem_filterMap] at h
  obtain ⟨p, hp, he⟩ := h
  cases hcbs : p.2 with
  | nil => rw [hcbs] at he; cases he
  | cons cb tl =>
    rw [hcbs] at he
    cases he
    exact ⟨rfl, List.mem_map_of_mem Prod.fst hp⟩

lemma callsOfList_mem_of_lookup (ct identifier : String) (cb : Callback)
    (tl : List Callback) {l : List (String × List Callback)}
    (h : innerLookup l identifier = some (cb :: tl)) :
    (ct, identifier, cb) ∈ callsOfList ct l := by
  unfold callsOfList
  rw [List.mem_filterMap]
  exact ⟨(identifier, cb :: tl), innerLookup_mem h, rfl⟩

lemma countP_callsOfList_zero (ct identifier : String)
    (l : List (String × List Callback))
    (hnot : identifier ∉ l.map Prod.fst) :
    (callsOfList ct l).countP (fun c => c.2.1 == identifier) = 0 := by
  rw [List.countP_eq_zero]
  intro c hc
  have h := (mem_callsOfList hc).2
  simp only [beq_iff_eq]
  intro he
  exact hnot (he ▸ h)

lemma countP_callsOfList_self (ct identifier : String) (cbs : List Callback) :
    ∀ (l : List (String × List Callback)),
      (l.map Prod.fst).Nodup →
      innerLookup l identifier = some cbs →
      (callsOfList ct l).countP (fun c => c.2.1 == identifier)
        = if cbs.isEmpty then 0 else 1 := by
  intro l
  induction l with
  | nil => intro _ h; simp [innerLookup] at h
  | cons p rest ih =>
    intro hnodup hlook
    obtain ⟨k, v⟩ := p
    have hpair := List.nodup_cons.mp
      (show (k :: rest.map Prod.fst).Nodup by simpa using hnodup)
    by_cases hk : k = identifier
    · subst hk
      have hv : v = cbs := by simpa [innerLookup] using hlook
      subst hv
      have hz : (callsOfList ct rest).countP (fun c => c.2.1 == k) = 0 :=
        countP_callsOfList_zero ct k rest hpair.1
      cases v with
      | nil => simpa [callsOfList, List.filterMap_cons] using hz
      | cons cb tl =>
        have hstep : callsOfList ct ((k, cb :: tl) :: rest)
            = (ct, k, cb) :: callsOfList ct rest := by
          simp [callsOfList, List.filterMap_cons]
        rw [hstep, List.countP_cons_of_pos _ _ (by simp), hz]
        rfl
    · have hlook' : innerLookup rest identifier = some cbs := by
        simpa [innerLookup, hk] using hlook
      have ihx := ih hpair.2 hlook'
      cases v with
      | nil => simpa [callsOfList, List.filterMap_cons] using ihx
      | cons cb tl =>
        have hstep : callsOfList ct ((k, cb :: tl) :: rest)
            = (ct, k, cb) :: callsOfList ct rest := by
          simp [callsOfList, List.filterMap_cons]
        rw [hstep, List.countP_cons_of_neg _ _ (by simp [hk])]
        exact ihx

lemma countP_chan_callsOfList_ne (ct0 ct identifier : String)
    (l : List (String × List Callback)) (hne : ct0 ≠ ct) :
    (callsOfList ct0 l).countP
        (fun c => c.1 == ct && c.2.1 == identifier) = 0 := by
  rw [List.countP_eq_zero]
  intro c hc
  have h := (mem_callsOfList hc).1
  simp [h, hne]

lemma countP_chan_callsOfList_self (ct identifier : String)
    (l : List (String × List Callback)) (cbs : List Callback)
    (hnodup : (l.map Prod.fst).Nodup)
    (hlook : innerLookup l identifier = some cbs) :
    (callsOfList ct l).countP (fun c => c.1 == ct && c.2.1 == identifier)
      = if cbs.isEmpty then 0 else 1 := by
  have hcong : (callsOfList ct l).countP (fun c => c.1 == ct && c.2.1 == identifier)
      = (callsOfList ct l).countP (fun c => c.2.1 == identifier) := by
    apply List.countP_congr
    intro c hc
    simp [(mem_callsOfList hc).1]
  rw [hcong]
  exact countP_callsOfList_self ct identifier cbs l hnodup hlook

lemma innerLookup_resubscribedList {l : List (String × List Callback)}
    {identifier : String} {cb : Callback} {tl : List Callback}
    (h : innerLookup l identifier = some (cb :: tl)) :
    innerLookup (resubscribedList l) identifier = some (cb :: tl ++ [cb]) := by
  induction l with
  | nil => simp [innerLookup] at h
  | cons p rest ih =>
    obtain ⟨k, v⟩ := p
    by_cases hk : k = identifier
    · subst hk
      have hv : v = cb :: tl := by simpa [innerLookup] using h
      subst hv
      simp [resubscribedList, innerLookup]
    · have h' : innerLookup rest identifier = some (cb :: tl) := by
        simpa [innerLookup, hk] using h
      cases v with
      | nil => simpa [resubscribedList, innerLookup, hk] using ih h'
      | cons a b => simpa [resubscribedList, innerLookup, hk] using ih h'

lemma resubscribeAll_calls (st : WSState) (hc : st.connected = true) :
    (resubscribeAll st).2.2
      = callsOfList "order_book" st.subs.order_book
        ++ callsOfList "trade" st.subs.trade
        ++ callsOfList "account_all" st.subs.account_all
        ++ callsOfList "ticker" st.subs.ticker
    ∧ (resubscribeAll st).2.1 = ((resubscribeAll st).2.2).map toSubMsg := by
  simp only [resubscribeAll]
  set r1 := resubscribeInner st "order_book" st.subs.order_book with hr1
  set r2 := resubscribeInner r1.1 "trade" r1.1.subs.trade with hr2
  set r3 := resubscribeInner r2.1 "account_all" r2.1.subs.account_all with hr3
  set r4 := resubscribeInner r3.1 "ticker" r3.1.subs.ticker with hr4
  have c1 : r1.1.connected = true := by
    rw [hr1, resubscribeInner_connected]; exact hc
  have c2 : r2.1.connected = true := by
    rw [hr2, resubscribeInner_connected]; exact c1
  have c3 : r3.1.connected = true := by
    rw [hr3, resubscribeInner_connected]; exact c2
  have et1 : r1.1.subs.trade = st.subs.trade := by
    have h := resubscribeInner_subs_ne "order_book" st.subs.order_book st "trade"
      (by decide)
    rw [get_trade, get_trade] at h
    rw [hr1]; exact h
  have ea1 : r1.1.subs.account_all = st.subs.account_all := by
    have h := resubscribeInner_subs_ne "order_book" st.subs.order_book st
      "account_all" (by decide)
    rw [get_account_all, get_account_all] at h
    rw [hr1]; exact h
  have ea2 : r2.1.subs.account_all = r1.1.subs.account_all := by
    have h := resubscribeInner_subs_ne "trade" r1.1.subs.trade r1.1
      "account_all" (by decide)
    rw [get_account_all, get_account_all] at h
    rw [hr2]; exact h
  have ek1 : r1.1.subs.ticker = st.subs.ticker := by
    have h := resubscribeInner_subs_ne "order_book" st.subs.order_book st
      "ticker" (by decide)
    rw [get_ticker, get_ticker] at h
    rw [hr1]; exact h
  have ek2 : r2.1.subs.ticker = r1.1.subs.ticker := by
    have h := resubscribeInner_subs_ne "trade" r1.1.subs.trade r1.1
      "ticker" (by decide)
    rw [get_ticker, get_ticker] at h
    rw [hr2]; exact h
  have ek3 : r3.1.subs.ticker = r2.1.subs.ticker := by
    have h := resubscribeInner_subs_ne "account_all" r2.1.subs.account_all r2.1
      "ticker" (by decide)
    rw [get_ticker, get_ticker] at h
    rw [hr3]; exact h
  have t1 := resubscribeInner_trace "order_book" (by decide)
    st.subs.order_book st hc
  have t2 := resubscribeInner_trace "trade" (by decide)
    r1.1.subs.trade r1.1 c1
  have t3 := resubscribeInner_trace "account_all" (by decide)
    r2.1.subs.account_all r2.1 c2
  have t4 := resubscribeInner_trace "ticker" (by decide)
    r3.1.subs.ticker r3.1 c3
  rw [← hr1] at t1
  rw [← hr2] at t2
  rw [← hr3] at t3
  rw [← hr4] at t4
  rw [et1] at t2
  rw [ea2, ea1] at t3
  rw [ek3, ek2, ek1] at t4
  refine ⟨?_, ?_⟩
  · rw [t1.1, t2.1, t3.1, t4.1]
  · rw [t1.1, t2.1, t3.1, t4.1, t1.2, t2.2, t3.2, t4.2]
    simp [List.map_append]

lemma resubscribeAll_subs_get (st : WSState) (hc : st.connected = true)
    (ct : String) (hct : validChannelType ct = true)
    (hnodup : ((st.subs.get ct).map Prod.fst).Nodup) :
    (resubscribeAll st).1.subs.get ct = resubscribedList (st.subs.get ct) := by
  simp only [resubscribeAll]
  set r1 := resubscribeInner st "order_book" st.subs.order_book with hr1
  set r2 := resubscribeInner r1.1 "trade" r1.1.subs.trade with hr2
  set r3 := resubscribeInner r2.1 "account_all" r2.1.subs.account_all with hr3
  set r4 := resubscribeInner r3.1 "ticker" r3.1.subs.ticker with hr4
  have c1 : r1.1.connected = true := by
    rw [hr1, resubscribeInner_connected]; exact hc
  have c2 : r2.1.connected = true := by
    rw [hr2, resubscribeInner_connected]; exact c1
  have c3 : r3.1.connected = true := by
    rw [hr3, resubscribeInner_connected]; exact c2
  have et1 : r1.1.subs.trade = st.subs.trade := by
    have h := resubscribeInner_subs_ne "order_book" st.subs.order_book st "trade"
      (by decide)
    rw [get_trade, get_trade] at h
    rw [hr1]; exact h
  have ea1 : r1.1.subs.account_all = st.subs.account_all := by
    have h := resubscribeInner_subs_ne "order_book" st.subs.order_book st
      "account_all" (by decide)
    rw [get_account_all, get_account_all] at h
    rw [hr1]; exact h
  have ea2 : r2.1.subs.account_all = r1.1.subs.account_all := by
    have h := resubscribeInner_subs_ne "trade" r1.1.subs.trade r1.1
      "account_all" (by decide)
    rw [get_account_all, get_account_all] at h
    rw [hr2]; exact h
  have ek1 : r1.1.subs.ticker = st.subs.ticker := by
    have h := resubscribeInner_subs_ne "order_book" st.subs.order_book st
      "ticker" (by decide)
    rw [get_ticker, get_ticker] at h
    rw [hr1]; exact h
  have ek2 : r2.1.subs.ticker = r1.1.subs.ticker := by
    have h := resubscribeInner_subs_ne "trade" r1.1.subs.trade r1.1
      "ticker" (by decide)
    rw [get_ticker, get_ticker] at h
    rw [hr2]; exact h
  have ek3 : r3.1.subs.ticker = r2.1.subs.ticker := by
    have h := resubscribeInner_subs_ne "account_all" r2.1.subs.account_all r2.1
      "ticker" (by decide)
    rw [get_ticker, get_ticker] at h
    rw [hr3]; exact h
  rcases validChannelType_cases ct hct with rfl | rfl | rfl | rfl
  · rw [get_order_book] at hnodup
    have s1 : r1.1.subs.get "order_book"
        = resubscribedList st.subs.order_book := by
      rw [hr1]
      have h := resubscribeInner_subs_self "order_book" (by decide)
        st.subs.order_book [] st hc
        (by rw [get_order_book]; exact (List.nil_append _).symm)
        hnodup (by simp)
      simpa using h
    have s2 : r2.1.subs.get "order_book" = r1.1.subs.get "order_book" := by
      rw [hr2]; exact resubscribeInner_subs_ne "trade" _ _ "order_book" (by decide)
    have s3 : r3.1.subs.get "order_book" = r2.1.subs.get "order_book" := by
      rw [hr3]
      exact resubscribeInner_subs_ne "account_all" _ _ "order_book" (by decide)
    have s4 : r4.1.subs.get "order_book" = r3.1.subs.get "order_book" := by
      rw [hr4]; exact resubscribeInner_subs_ne "ticker" _ _ "order_book" (by decide)
    rw [s4, s3, s2, s1, get_order_book]
  · rw [get_trade] at hnodup
    have hnodup1 : ((r1.1.subs.trade).map Prod.fst).Nodup := by
      rw [et1]; exact hnodup
    have s2 : r2.1.subs.get "trade" = resubscribedList r1.1.subs.trade := by
      rw [hr2]
      have h := resubscribeInner_subs_self "trade" (by decide)
        r1.1.subs.trade [] r1.1 c1
        (by rw [get_trade]; exact (List.nil_append _).symm)
        hnodup1 (by simp)
      simpa using h
    have s3 : r3.1.subs.get "trade" = r2.1.subs.get "trade" := by
      rw [hr3]
      exact resubscribeInner_subs_ne "account_all" _ _ "trade" (by decide)
    have s4 : r4.1.subs.get "trade" = r3.1.subs.get "trade" := by
      rw [hr4]; exact resubscribeInner_subs_ne "ticker" _ _ "trade" (by decide)
    rw [s4, s3, s2, et1, get_trade]
  · rw [get_account_all] at hnodup
    have hnodup2 : ((r2.1.subs.account_all).map Prod.fst).Nodup := by
      rw [ea2, ea1]; exact hnodup
    have s3 : r3.1.subs.get "account_all"
        = resubscribedList r2.1.subs.account_all := by
      rw [hr3]
      have h := resubscribeInner_subs_self "account_all" (by decide)
        r2.1.subs.account_all [] r2.1 c2
        (by rw [get_account_all]; exact (List.nil_append _).symm)
        hnodup2 (by simp)
      simpa using h
    have s4 : r4.1.subs.get "account_all" = r3.1.subs.get "account_all" := by
      rw [hr4]
      exact resubscribeInner_subs_ne "ticker" _ _ "account_all" (by decide)
    rw [s4, s3, ea2, ea1, get_account_all]
  · rw [get_ticker] at hnodup
    have hnodup3 : ((r3.1.subs.ticker).map Prod.fst).Nodup := by
      rw [ek3, ek2, ek1]; exact hnodup
    have s4 : r4.1.subs.get "ticker" = resubscribedList r3.1.subs.ticker := by
      rw [hr4]
      have h := resubscribeInner_subs_self "ticker" (by decide)
        r3.1.subs.ticker [] r3.1 c3
        (by rw [get_ticker]; exact (List.nil_append _).symm)
        hnodup3 (by simp)
      simpa using h
    rw [s4, ek3, ek2, ek1, get_ticker]

/-- C2: after a successful reconnect (`_resubscribe_all` run on a connected
state), each channel whose callback list is non-empty receives exactly one
resubscription — one `subscribe` call, hence one outbound subscribe
command, made with the channel's first-registered callback — and each
channel with an empty callback list receives none; the outbound frames are
exactly one subscribe command per recorded call. -/
theorem C2_resubscribe_exactly_once (st : WSState) (ct identifier : String)
    (cbs : List Callback)
    (hc : st.connected = true) (hct : validChannelType ct = true)
    (hnodup : ((st.subs.get ct).map Prod.fst).Nodup)
    (hlook : innerLookup (st.subs.get ct) identifier = some cbs) :
    ((resubscribeAll st).2.2).countP
        (fun c => c.1 == ct && c.2.1 == identifier)
      = (if cbs.isEmpty then 0 else 1)
    ∧ (∀ cb tl, cbs = cb :: tl → (ct, identifier, cb) ∈ (resubscribeAll st).2.2)
    ∧ (resubscribeAll st).2.1 = ((resubscribeAll st).2.2).map toSubMsg := by
  obtain ⟨hcalls, hmsgs⟩ := resubscribeAll_calls st hc
  refine ⟨?_, ?_, hmsgs⟩
  · rw [hcalls]
    simp only [List.countP_append]
    rcases validChannelType_cases ct hct with rfl | rfl | rfl | rfl
    · rw [get_order_book] at hnodup hlook
      rw [countP_chan_callsOfList_self "order_book" identifier _ cbs hnodup hlook,
        countP_chan_callsOfList_ne "trade" "order_book" identifier _ (by decide),
        countP_chan_callsOfList_ne "account_all" "order_book" identifier _ (by decide),
        countP_chan_callsOfList_ne "ticker" "order_book" identifier _ (by decide)]
      simp
    · rw [get_trade] at hnodup hlook
      rw [countP_chan_callsOfList_self "trade" identifier _ cbs hnodup hlook,
        countP_chan_callsOfList_ne "order_book" "trade" identifier _ (by decide),
        countP_chan_callsOfList_ne "account_all" "trade" identifier _ (by decide),
        countP_chan_callsOfList_ne "ticker" "trade" identifier _ (by decide)]
      simp
    · rw [get_account_all] at hnodup hlook
      rw [countP_chan_callsOfList_self "account_all" identifier _ cbs hnodup hlook,
        countP_chan_callsOfList_ne "order_book" "account_all" identifier _ (by decide),
        countP_chan_callsOfList_ne "trade" "account_all" identifier _ (by decide),
        countP_chan_callsOfList_ne "ticker" "account_all" identifier _ (by decide)]
      simp
    · rw [get_ticker] at hnodup hlook
      rw [countP_chan_callsOfList_self "ticker" identifier _ cbs hnodup hlook,
        countP_chan_callsOfList_ne "order_book" "ticker" identifier _ (by decide),
        countP_chan_callsOfList_ne "trade" "ticker" identifier _ (by decide),
        countP_chan_callsOfList_ne "account_all" "ticker" identifier _ (by decide)]
      simp
  · intro cb tl hcb
    subst hcb
    rw [hcalls]
    rcases validChannelType_cases ct hct with rfl | rfl | rfl | rfl
    · rw [get_order_book] at hlook
      have hm := callsOfList_mem_of_lookup "order_book" identifier cb tl hlook
      simp only [List.mem_append]
      tauto
    · rw [get_trade] at hlook
      have hm := callsOfList_mem_of_lookup "trade" identifier cb tl hlook
      simp only [List.mem_append]
      tauto
    · rw [get_account_all] at hlook
      have hm := callsOfList_mem_of_lookup "account_all" identifier cb tl hlook
      simp only [List.mem_append]
      tauto
    · rw [get_ticker] at hlook
      have hm := callsOfList_mem_of_lookup "ticker" identifier cb tl hlook
      simp only [List.mem_append]
      tauto

/-- Closed witness for C2: on `wsDemoState`, channel `("order_book","1")`
(callbacks `[7, 8]`) is resubscribed exactly once with callback `7`, and
the empty channel contributes no call; frames mirror the calls. -/
theorem C2_resubscribe_exactly_once_witness :
    ((resubscribeAll wsDemoState).2.2).countP
        (fun c => c.1 == "order_book" && c.2.1 == "1") = 1
    ∧ ("order_book", "1", 7) ∈ (resubscribeAll wsDemoState).2.2
    ∧ (resubscribeAll wsDemoState).2.1
        = ((resubscribeAll wsDemoState).2.2).map toSubMsg := by
  have h := C2_resubscribe_exactly_once wsDemoState "order_book" "1" [7, 8]
    rfl (by decide) (by decide) (by decide)
  exact ⟨h.1, h.2.1 7 [8] rfl, h.2.2⟩

/-- C10 (implicit claim): reconnect-driven resubscription goes through
`subscribe`, which appends the callback it is given; hence after a
successful reconnect a channel that held `cb :: tl` holds
`cb :: tl ++ [cb]` — one more duplicate of its first callback — and a
delivered frame on that channel invokes the callbacks of that grown list in
order, i.e. the first callback once per copy (one extra invocation). -/
theorem C10_resubscribe_duplicates (st : WSState) (ct identifier : String)
    (cb : Callback) (tl : List Callback)
    (hc : st.connected = true) (hct : validChannelType ct = true)
    (hnodup : ((st.subs.get ct).map Prod.fst).Nodup)
    (hlook : innerLookup (st.subs.get ct) identifier = some (cb :: tl)) :
    innerLookup ((resubscribeAll st).1.subs.get ct) identifier
        = some (cb :: tl ++ [cb])
    ∧ (∀ channel, extract_channel_id channel = some identifier →
        dispatchUpdate (resubscribeAll st).1.subs ct channel
          = cb :: tl ++ [cb])
    ∧ (cb :: tl ++ [cb]).count cb = ((cb :: tl).count cb) + 1 := by
  have h1 : innerLookup ((resubscribeAll st).1.subs.get ct) identifier
      = some (cb :: tl ++ [cb]) := by
    rw [resubscribeAll_subs_get st hc ct hct hnodup]
    exact innerLookup_resubscribedList hlook
  refine ⟨h1, ?_, ?_⟩
  · intro channel hch
    unfold dispatchUpdate
    rw [hch]
    simp [h1]
  · show ((cb :: tl) ++ [cb]).count cb = ((cb :: tl).count cb) + 1
    rw [List.count_append]
    simp

lemma pyRound_intCast (n : ℤ) : pyRound (n : ℚ) = n := by
  simp [pyRound, Rat.num_intCast, Rat.den_intCast, Int.emod_one, Int.ediv_one]

lemma fract_num_emod (q : ℚ) :
    Int.fract q = ((q.num % (q.den : ℤ) : ℤ) : ℚ) / ((q.den : ℕ) : ℚ) := by
  have hd : ((q.den : ℕ) : ℚ) ≠ 0 := by
    exact_mod_cast q.den_pos.ne'
  have h1 : (q.den : ℤ) * (q.num / (q.den : ℤ)) + q.num % (q.den : ℤ) = q.num :=
    Int.ediv_add_emod _ _
  have h1q : ((q.den : ℕ) : ℚ) * ((q.num / (q.den : ℤ) : ℤ) : ℚ)
      + ((q.num % (q.den : ℤ) : ℤ) : ℚ) = ((q.num : ℤ) : ℚ) := by
    exact_mod_cast congrArg (fun z : ℤ => (z : ℚ)) h1
  have hfloor : (⌊q⌋ : ℚ) = ((q.num / (q.den : ℤ) : ℤ) : ℚ) := by
    exact_mod_cast congrArg (fun z : ℤ => (z : ℚ)) Rat.floor_def
  have hmul : q * ((q.den : ℕ) : ℚ) = ((q.num : ℤ) : ℚ) := by
    nth_rewrite 1 [← Rat.num_div_den q]
    exact div_mul_cancel₀ _ hd
  rw [Int.fract, eq_div_iff hd, sub_mul, hmul, hfloor]
  linarith [h1q]

lemma pyRound_eq_cases (q : ℚ) :
    (pyRound q = ⌊q⌋ ∧ Int.fract q ≤ 1/2) ∨
    (pyRound q = ⌊q⌋ + 1 ∧ 1/2 ≤ Int.fract q) := by
  have hdQ : (0 : ℚ) < ((q.den : ℕ) : ℚ) := by exact_mod_cast q.den_pos
  have hfr := fract_num_emod q
  have hfloor : q.num / (q.den : ℤ) = ⌊q⌋ := Rat.floor_def.symm
  unfold pyRound
  split_ifs with h1 h2 h3
  · left
    refine ⟨hfloor, ?_⟩
    rw [hfr, div_le_div_iff hdQ (by norm_num : (0:ℚ) < 2)]
    have : (2:ℚ) * ((q.num % (q.den : ℤ) : ℤ) : ℚ) ≤ ((q.den : ℕ) : ℚ) := by
      exact_mod_cast h1.le
    linarith
  · right
    refine ⟨by rw [hfloor], ?_⟩
    rw [hfr, div_le_div_iff (by norm_num : (0:ℚ) < 2) hdQ]
    have : ((q.den : ℕ) : ℚ) ≤ (2:ℚ) * ((q.num % (q.den : ℤ) : ℤ) : ℚ) := by
      exact_mod_cast h2.le
    linarith
  · left
    refine ⟨hfloor, ?_⟩
    rw [hfr, div_le_div_iff hdQ (by norm_num : (0:ℚ) < 2)]
    have hint : 2 * (q.num % (q.den : ℤ)) = (q.den : ℤ) :=
      le_antisymm (not_lt.mp h2) (not_lt.mp h1)
    have he : (2:ℚ) * ((q.num % (q.den : ℤ) : ℤ) : ℚ) = ((q.den : ℕ) : ℚ) := by
      exact_mod_cast hint
    linarith
  · right
    refine ⟨by rw [hfloor], ?_⟩
    rw [hfr, div_le_div_iff (by norm_num : (0:ℚ) < 2) hdQ]
    have hint : 2 * (q.num % (q.den : ℤ)) = (q.den : ℤ) :=
      le_antisymm (not_lt.mp h2) (not_lt.mp h1)
    have he : (2:ℚ) * ((q.num % (q.den : ℤ) : ℤ) : ℚ) = ((q.den : ℕ) : ℚ) := by
      exact_mod_cast hint
    linarith

lemma pyRound_tie_even (q : ℚ) (m : ℤ) (h : q = (m : ℚ) + 1/2) :
    Even (pyRound q) := by
  have hfr : Int.fract q = 1/2 := by
    rw [h, Int.fract_int_add, Int.fract_eq_self.mpr ⟨by norm_num, by norm_num⟩]
  have hdQ : (0 : ℚ) < ((q.den : ℕ) : ℚ) := by exact_mod_cast q.den_pos
  have hE : ((q.num % (q.den : ℤ) : ℤ) : ℚ) / ((q.den : ℕ) : ℚ) = 1/2 := by
    rw [← fract_num_emod q]; exact hfr
  have h2 : 2 * (q.num % (q.den : ℤ)) = (q.den : ℤ) := by
    have hq : (2:ℚ) * ((q.num % (q.den : ℤ) : ℤ) : ℚ) = ((q.den : ℕ) : ℚ) := by
      field_simp at hE
      linarith
    exact_mod_cast hq
  unfold pyRound
  split_ifs with ha hb hc
  · exact absurd ha (by omega)
  · exact absurd hb (by omega)
  · exact hc
  · exact Int.even_add_one.mpr hc

lemma abs_sub_pyRound (q : ℚ) : |q - (pyRound q : ℚ)| ≤ 1/2 := by
  have hfr : q - (⌊q⌋ : ℚ) = Int.fract q := rfl
  have h0 := Int.fract_nonneg q
  have h1 := Int.fract_lt_one q
  rcases pyRound_eq_cases q with ⟨he, hle⟩ | ⟨he, hge⟩
  · rw [he]
    rw [abs_of_nonneg (by linarith [hfr ▸ h0] : (0:ℚ) ≤ q - (⌊q⌋ : ℚ))]
    linarith [hfr ▸ hle]
  · rw [he]
    push_cast
    have : q - ((⌊q⌋ : ℚ) + 1) = Int.fract q - 1 := by rw [← hfr]; ring
    rw [this, abs_of_nonpos (by linarith)]
    linarith

lemma pyRound_nearest (q : ℚ) (k : ℤ) :
    |q - (pyRound q : ℚ)| ≤ |q - (k : ℚ)| := by
  by_cases hk : k = pyRound q
  · rw [hk]
  · have hne : pyRound q - k ≠ 0 := sub_ne_zero.mpr (fun h => hk h.symm)
    have h1 : (1 : ℚ) ≤ |(pyRound q : ℚ) - (k : ℚ)| := by
      have := Int.one_le_abs hne
      have hcast : |((pyRound q - k : ℤ) : ℚ)| = |(pyRound q : ℚ) - (k : ℚ)| := by
        push_cast
        rfl
      rw [← hcast]
      exact_mod_cast this
    have h2 := abs_sub_pyRound q
    have htri : |(pyRound q : ℚ) - (k : ℚ)|
        ≤ |(pyRound q : ℚ) - q| + |q - (k : ℚ)| := abs_sub_le _ _ _
    have hcomm : |(pyRound q : ℚ) - q| = |q - (pyRound q : ℚ)| := abs_sub_comm _ _
    linarith

/-- C8: `adjust_to_tick_size` is idempotent — re-applying it to an
already-adjusted price is a no-op, for every price, symbol and cache
state. -/
theorem C8_adjust_idempotent (st : PMState) (symbol : String) (p : ℚ) :
    adjust_to_tick_size st (adjust_to_tick_size st p symbol) symbol
      = adjust_to_tick_size st p symbol := by
  unfold adjust_to_tick_size
  have hf : ((10:ℚ) ^ (resolve_market st symbol).price_precision) ≠ 0 := by
    positivity
  rw [div_mul_cancel₀ _ hf, pyRound_intCast]

unseal Rat.mul Rat.inv Rat.add in
/-- C9, counterexample to the claimed half-up rounding: at default price
precision 2 the price 1/8 = 0.125 scales to 12.5, which Python's `round`
takes to 12 (ties to even), giving 0.12 — while the spec's standard
half-up rounding gives 13, i.e. 0.13. -/
theorem C9_adjust_rounding_counterexample :
    adjust_to_tick_size pmInit (mkRat 1 8) "FOO-USDT"
        ≠ adjust_to_tick_size_spec pmInit (mkRat 1 8) "FOO-USDT"
    ∧ adjust_to_tick_size pmInit (mkRat 1 8) "FOO-USDT" = mkRat 3 25
    ∧ adjust_to_tick_size_spec pmInit (mkRat 1 8) "FOO-USDT" = mkRat 13 100 := by
  refine ⟨by decide, by decide, by decide⟩

/-- C9 as amended: `adjust_to_tick_size` returns, as a numeric value, the
multiple of `10^(-price_precision)` nearest to the price, but exact
half-way cases are resolved to the even scaled integer (Python `round`'s
banker's rounding), not half-up. -/
theorem C9_adjust_rounding_amended (st : PMState) (symbol : String) (p : ℚ) :
    adjust_to_tick_size st p symbol
        = (pyRound (p * (10:ℚ) ^ (resolve_market st symbol).price_precision) : ℚ)
          / (10:ℚ) ^ (resolve_market st symbol).price_precision
    ∧ (∀ k : ℤ, |p - adjust_to_tick_size st p symbol|
          ≤ |p - (k : ℚ) / (10:ℚ) ^ (resolve_market st symbol).price_precision|)
    ∧ (∀ m : ℤ,
        p * (10:ℚ) ^ (resolve_market st symbol).price_precision = (m:ℚ) + 1/2 →
        Even (pyRound
          (p * (10:ℚ) ^ (resolve_market st symbol).price_precision))) := by
  refine ⟨rfl, ?_, ?_⟩
  · intro k
    have hf0 : (0:ℚ) < (10:ℚ) ^ (resolve_market st symbol).price_precision := by
      positivity
    have key : ∀ n : ℤ,
        |p - (n:ℚ) / (10:ℚ) ^ (resolve_market st symbol).price_precision|
        = |p * (10:ℚ) ^ (resolve_market st symbol).price_precision - (n:ℚ)|
          / (10:ℚ) ^ (resolve_market st symbol).price_precision := by
      intro n
      have hrw : p - (n:ℚ) / (10:ℚ) ^ (resolve_market st symbol).price_precision
          = (p * (10:ℚ) ^ (resolve_market st symbol).price_precision - (n:ℚ))
            / (10:ℚ) ^ (resolve_market st symbol).price_precision := by
        field_simp
      rw [hrw, abs_div, abs_of_pos hf0]
    rw [show adjust_to_tick_size st p symbol
        = (pyRound (p * (10:ℚ) ^ (resolve_market st symbol).price_precision) : ℚ)
          / (10:ℚ) ^ (resolve_market st symbol).price_precision from rfl]
    rw [key, key]
    rw [div_le_div_iff_of_pos_right hf0]
    exact pyRound_nearest
      (p * (10:ℚ) ^ (resolve_market st symbol).price_precision) k
  · intro m hm
    exact pyRound_tie_even _ m hm

unseal Rat.mul Rat.inv Rat.add in
/-- Closed witness for the amended C9 at price 1/8 with the default
precision 2: the adjusted price is 0.12 and the scaled tie rounds to the
even integer 12. -/
theorem C9_adjust_rounding_amended_witness :
    adjust_to_tick_size pmInit (mkRat 1 8) "FOO-USDT" = mkRat 3 25
    ∧ Even (pyRound ((mkRat 1 8)
        * (10:ℚ) ^ (resolve_market pmInit "FOO-USDT").price_precision)) := by
  have h := C9_adjust_rounding_amended pmInit "FOO-USDT" (mkRat 1 8)
  refine ⟨?_, h.2.2 12 (by decide)⟩
  rw [h.1]
  decide

/-- C6: when the symbol is not cached, and the metadata lookup totally
fails — the collaborator raises, or no exact match, no base-symbol match
and no resolvable market id exist in the listing — `get_market_info`
returns (without raising, and without touching the caches) the default
Market of `_get_default_precision`, which for symbols outside the small
per-symbol table has price precision 2, quantity precision 4, minimum
quantity 0.001 and minimum notional 10. -/
theorem C6_default_market (st : PMState) (env : ApiEnv) (symbol : String)
    (hcache : ∀ mid, alistLookup st.symbol_to_market_id symbol = some mid →
        alistLookup st.precision_cache mid = none)
    (hfail : env.order_books = none ∨
      ∃ l, env.order_books = some l ∧ find_market l symbol = none
        ∧ find_market l (base_symbol_of symbol) = none
        ∧ scan_market_id l symbol = none) :
    (get_market_info st env symbol).1 = get_default_precision symbol
    ∧ (get_market_info st env symbol).2 = st
    ∧ (alistLookup default_precisions symbol = none →
        (get_market_info st env symbol).1.price_precision = 2
        ∧ (get_market_info st env symbol).1.quantity_precision = 4
        ∧ (get_market_info st env symbol).1.min_quantity = mkRat 1 1000
        ∧ (get_market_info st env symbol).1.min_notional = 10) := by
  have hfetch : get_market_info st env symbol
      = get_market_info_fetch st env symbol := by
    unfold get_market_info
    cases hsym : alistLookup st.symbol_to_market_id symbol with
    | none => rfl
    | some mid => simp [hcache mid hsym]
  have hdef : get_market_info_fetch st env symbol
      = (get_default_precision symbol, st) := by
    rcases hfail with hnone | ⟨l, henv, h1, h2, h3⟩
    · unfold get_market_info_fetch
      rw [hnone]
    · simp only [get_market_info_fetch, symbol_to_market_id_from_api,
        henv, h1, h2, h3]
  rw [hfetch, hdef]
  refine ⟨rfl, rfl, fun hnd => ?_⟩
  simp [get_default_precision, hnd]

lemma digitChar_mem (d : Nat) (h : d < 10) : Nat.digitChar d ∈ digitChars := by
  interval_cases d <;> decide

lemma digitChars_ne_dot {c : Char} (h : c ∈ digitChars) : ¬ c = '.' := by
  fin_cases h <;> decide

lemma natDigitsAux_mem (fuel : Nat) :
    ∀ n, n < fuel → ∀ c ∈ natDigitsAux fuel n, c ∈ digitChars := by
  induction fuel with
  | zero => intro n h; omega
  | succ fuel ih =>
    intro n hn c hc
    unfold natDigitsAux at hc
    split_ifs at hc with h10
    · simp only [List.mem_singleton] at hc
      subst hc
      exact digitChar_mem n h10
    · rw [List.mem_append] at hc
      rcases hc with hc | hc
      · exact ih (n / 10) (by omega) c hc
      · simp only [List.mem_singleton] at hc
        subst hc
        exact digitChar_mem (n % 10) (by omega)

lemma natDigits_mem {n : Nat} {c : Char} (hc : c ∈ natDigits n) :
    c ∈ digitChars :=
  natDigitsAux_mem (n + 1) n (by omega) c hc

lemma natDigitsAux_ne_nil (fuel n : Nat) (h : n < fuel) :
    natDigitsAux fuel n ≠ [] := by
  match fuel, h with
  | fuel + 1, _ =>
    unfold natDigitsAux
    split_ifs
    · simp
    · simp

lemma natDigits_ne_nil (n : Nat) : natDigits n ≠ [] :=
  natDigitsAux_ne_nil (n + 1) n (by omega)

lemma natDigitsAux_length (fuel : Nat) :
    ∀ n p, n < fuel → 1 ≤ p → n < 10 ^ p →
      (natDigitsAux fuel n).length ≤ p := by
  induction fuel with
  | zero => intro n p h; omega
  | succ fuel ih =>
    intro n p hn hp hpow
    unfold natDigitsAux
    split_ifs with h10
    · simpa using hp
    · obtain ⟨pp, rfl⟩ : ∃ pp, p = pp + 1 := ⟨p - 1, by omega⟩
      have hp' : 1 ≤ pp := by
        by_contra hcon
        have hz : pp = 0 := by omega
        subst hz
        have : n < 10 := by simpa using hpow
        omega
      have hdivpow : n / 10 < 10 ^ pp := by
        have hmul : n < 10 ^ pp * 10 := by
          rw [← pow_succ]
          exact hpow
        omega
      have hlen := ih (n / 10) pp (by omega) hp' hdivpow
      simp only [List.length_append, List.length_singleton]
      omega

lemma natDigits_length {n p : Nat} (hp : 1 ≤ p) (hpow : n < 10 ^ p) :
    (natDigits n).length ≤ p :=
  natDigitsAux_length (n + 1) n p (by omega) hp hpow

lemma padZeros_mem {l : List Char} {w : Nat} {c : Char}
    (hl : ∀ c ∈ l, c ∈ digitChars) (hc : c ∈ padZeros l w) : c ∈ digitChars := by
  unfold padZeros at hc
  rw [List.mem_append] at hc
  rcases hc with hc | hc
  · rw [List.eq_of_mem_replicate hc]
    decide
  · exact hl c hc

lemma padZeros_length {l : List Char} {w : Nat} (h : l.length ≤ w) :
    (padZeros l w).length = w := by
  simp only [padZeros, List.length_append, List.length_replicate]
  omega

lemma padZeros_zero_digits (prec : Nat) (hp : 1 ≤ prec) :
    padZeros (natDigits 0) prec = List.replicate prec '0' := by
  have h0 : natDigits 0 = ['0'] := rfl
  rw [h0]
  unfold padZeros
  obtain ⟨pp, rfl⟩ : ∃ pp, prec = pp + 1 := ⟨prec - 1, by omega⟩
  rw [List.replicate_succ' pp '0']
  simp

lemma rdropWhile_append_of_ne_nil (p : Char → Bool) (xs : List Char) :
    ∀ ys : List Char, ys.rdropWhile p ≠ [] →
      (xs ++ ys).rdropWhile p = xs ++ ys.rdropWhile p := by
  intro ys
  induction ys using List.reverseRecOn with
  | nil => intro h; simp [List.rdropWhile_nil] at h
  | append_singleton ys y ih =>
    intro h
    by_cases hy : p y
    · rw [List.rdropWhile_concat_pos p ys y hy] at h
      rw [← List.append_assoc, List.rdropWhile_concat_pos p (xs ++ ys) y hy,
        List.rdropWhile_concat_pos p ys y hy, ih h]
    · rw [← List.append_assoc, List.rdropWhile_concat_neg p (xs ++ ys) y hy,
        List.rdropWhile_concat_neg p ys y hy, List.append_assoc]

lemma rdropWhile_append_of_all (p : Char → Bool) (xs : List Char) :
    ∀ ys : List Char, (∀ y ∈ ys, p y = true) →
      (xs ++ ys).rdropWhile p = xs.rdropWhile p := by
  intro ys
  induction ys using List.reverseRecOn with
  | nil => intro _; simp
  | append_singleton ys y ih =>
    intro h
    rw [← List.append_assoc, List.rdropWhile_concat_pos p (xs ++ ys) y
      (h y (by simp)), ih (fun z hz => h z (by simp [hz]))]

lemma dropWhile_not_dot_append (xs ys : List Char)
    (hxs : ∀ c ∈ xs, ¬ c = '.') :
    (xs ++ ys).dropWhile (fun c => ¬ c = '.')
      = ys.dropWhile (fun c => ¬ c = '.') := by
  have hnil : xs.dropWhile (fun c => ¬ c = '.') = [] := by
    rw [List.dropWhile_eq_nil_iff]
    intro x hx
    simpa using hxs x hx
  rw [List.dropWhile_append, hnil]
  simp

lemma stripTrailing_shape_core (sign ipd frac : List Char) (prec : Nat)
    (hsign : sign = [] ∨ sign = ['-'])
    (hipd_ne : ipd ≠ []) (hipd_dig : ∀ c ∈ ipd, c ∈ digitChars)
    (hfrac_dig : ∀ c ∈ frac, c ∈ digitChars)
    (hfrac_len : frac.length = prec) :
    digitsAfterDot (stripTrailing (sign ++ ipd ++ ['.'] ++ frac)) ≤ prec
    ∧ ('.' ∈ stripTrailing (sign ++ ipd ++ ['.'] ++ frac) →
        (stripTrailing (sign ++ ipd ++ ['.'] ++ frac)).getLast? ≠ some '0'
        ∧ (stripTrailing (sign ++ ipd ++ ['.'] ++ frac)).getLast? ≠ some '.')
    ∧ (frac = List.replicate prec '0' →
        '.' ∉ stripTrailing (sign ++ ipd ++ ['.'] ++ frac)) := by
  have hdot_in : '.' ∈ sign ++ ipd ++ ['.'] ++ frac := by simp
  have hstrip : stripTrailing (sign ++ ipd ++ ['.'] ++ frac)
      = ((sign ++ ipd ++ ['.'] ++ frac).rdropWhile
          (fun c => c = '0')).rdropWhile (fun c => c = '.') := by
    unfold stripTrailing
    rw [if_pos hdot_in]
  have hsi_nodot : ∀ c ∈ sign ++ ipd, ¬ c = '.' := by
    intro c hc
    rw [List.mem_append] at hc
    rcases hc with hc | hc
    · rcases hsign with rfl | rfl
      · cases hc
      · simp only [List.mem_singleton] at hc
        subst hc
        decide
    · exact digitChars_ne_dot (hipd_dig c hc)
  have hsi_ne : sign ++ ipd ≠ [] := by
    intro hcon
    exact hipd_ne (List.append_eq_nil.mp hcon).2
  have hsi_last : ∀ hl : sign ++ ipd ≠ [],
      ¬ ((sign ++ ipd).getLast hl = '.') :=
    fun hl => hsi_nodot _ (List.getLast_mem hl)
  by_cases hfz : frac.rdropWhile (fun c => c = '0') = []
  · -- the whole fraction strips away, then the dot goes too
    have hall : ∀ y ∈ frac, (fun c => decide (c = '0')) y = true :=
      List.rdropWhile_eq_nil_iff.mp hfz
    have h1 : (sign ++ ipd ++ ['.'] ++ frac).rdropWhile (fun c => c = '0')
        = sign ++ ipd ++ ['.'] := by
      rw [rdropWhile_append_of_all _ _ _ hall,
        List.rdropWhile_concat_neg _ _ _ (by decide)]
    have h2 : (sign ++ ipd ++ ['.']).rdropWhile (fun c => c = '.')
        = sign ++ ipd := by
      rw [List.rdropWhile_concat_pos _ _ _ (by decide)]
      rw [List.rdropWhile_eq_self_iff]
      intro hl
      simpa using hsi_last hl
    have hres : stripTrailing (sign ++ ipd ++ ['.'] ++ frac) = sign ++ ipd := by
      rw [hstrip, h1, h2]
    rw [hres]
    have hnod : '.' ∉ sign ++ ipd := fun hin => hsi_nodot '.' hin rfl
    refine ⟨?_, fun hdot => absurd hdot hnod, fun _ => hnod⟩
    unfold digitsAfterDot
    have hdw : (sign ++ ipd).dropWhile (fun c => ¬ c = '.') = [] := by
      rw [List.dropWhile_eq_nil_iff]
      intro x hx
      simpa using hsi_nodot x hx
    rw [hdw]
    simp
  · -- a significant fraction digit survives
    have hfd : ∀ c ∈ frac.rdropWhile (fun c => c = '0'), c ∈ digitChars :=
      fun c hc => hfrac_dig c ((List.rdropWhile_prefix _ _).subset hc)
    have h1 : (sign ++ ipd ++ ['.'] ++ frac).rdropWhile (fun c => c = '0')
        = (sign ++ ipd ++ ['.']) ++ frac.rdropWhile (fun c => c = '0') :=
      rdropWhile_append_of_ne_nil _ _ _ hfz
    have hlast_dig : (frac.rdropWhile (fun c => c = '0')).getLast hfz
        ∈ digitChars := hfd _ (List.getLast_mem hfz)
    have h2 : ((sign ++ ipd ++ ['.']) ++ frac.rdropWhile
          (fun c => c = '0')).rdropWhile (fun c => c = '.')
        = (sign ++ ipd ++ ['.']) ++ frac.rdropWhile (fun c => c = '0') := by
      rw [List.rdropWhile_eq_self_iff]
      intro hl
      have hg : ((sign ++ ipd ++ ['.']) ++ frac.rdropWhile
          (fun c => c = '0')).getLast hl
          = (frac.rdropWhile (fun c => c = '0')).getLast hfz := by
        rw [List.getLast_append]
        split_ifs with hemp
        · exact absurd (List.isEmpty_iff.mp hemp) hfz
        · rfl
      rw [hg]
      simpa using digitChars_ne_dot hlast_dig
    have hres : stripTrailing (sign ++ ipd ++ ['.'] ++ frac)
        = (sign ++ ipd ++ ['.']) ++ frac.rdropWhile (fun c => c = '0') := by
      rw [hstrip, h1, h2]
    rw [hres]
    have hlast? : ((sign ++ ipd ++ ['.']) ++ frac.rdropWhile
          (fun c => c = '0')).getLast?
        = some ((frac.rdropWhile (fun c => c = '0')).getLast hfz) := by
      rw [List.getLast?_append, List.getLast?_eq_getLast _ hfz]
      rfl
    refine ⟨?_, fun _ => ⟨?_, ?_⟩, fun hrep => ?_⟩
    · unfold digitsAfterDot
      have hassoc : (sign ++ ipd ++ ['.']) ++ frac.rdropWhile (fun c => c = '0')
          = (sign ++ ipd) ++ ('.' :: frac.rdropWhile (fun c => c = '0')) := by
        simp
      rw [hassoc, dropWhile_not_dot_append _ _ hsi_nodot,
        List.dropWhile_cons_of_neg (by simp)]
      simp only [List.drop_one, List.tail_cons]
      calc (frac.rdropWhile (fun c => c = '0')).length
          ≤ frac.length := (List.rdropWhile_prefix _ _).length_le
        _ = prec := hfrac_len
    · rw [hlast?]
      intro hcon
      have := List.rdropWhile_last_not (fun c => c = '0') frac hfz
      rw [Option.some_inj.mp hcon] at this
      simp at this
    · rw [hlast?]
      intro hcon
      exact digitChars_ne_dot hlast_dig (Option.some_inj.mp hcon)
    · exfalso
      apply hfz
      rw [hrep, List.rdropWhile_eq_nil_iff]
      intro x hx
      rw [List.eq_of_mem_replicate hx]
      decide

lemma formatFixed_shape (q : ℚ) (prec : Nat) :
    digitsAfterDot (stripTrailing (formatFixed q prec)) ≤ prec
    ∧ ('.' ∈ stripTrailing (formatFixed q prec) →
        (stripTrailing (formatFixed q prec)).getLast? ≠ some '0'
        ∧ (stripTrailing (formatFixed q prec)).getLast? ≠ some '.')
    ∧ ((pyRound (q * (10:ℚ) ^ prec)).natAbs % 10 ^ prec = 0 →
        '.' ∉ stripTrailing (formatFixed q prec)) := by
  cases prec with
  | zero =>
    have hnod : '.' ∉ formatFixed q 0 := by
      intro hmem
      unfold formatFixed at hmem
      rw [if_pos rfl, List.mem_append] at hmem
      rcases hmem with h | h
      · revert h
        split_ifs <;> decide
      · exact absurd (natDigits_mem h) (by decide)
    have hstrip : stripTrailing (formatFixed q 0) = formatFixed q 0 := by
      unfold stripTrailing
      rw [if_neg hnod]
    rw [hstrip]
    refine ⟨?_, fun hdot => absurd hdot hnod, fun _ => hnod⟩
    unfold digitsAfterDot
    have hdw : (formatFixed q 0).dropWhile (fun c => ¬ c = '.') = [] := by
      rw [List.dropWhile_eq_nil_iff]
      intro x hx
      simp only [decide_eq_true_eq]
      exact fun hx' => hnod (hx' ▸ hx)
    rw [hdw]
    simp
  | succ p =>
    have hform : formatFixed q (p + 1)
        = (if pyRound (q * (10:ℚ) ^ (p+1)) < 0 then ['-'] else [])
          ++ natDigits ((pyRound (q * (10:ℚ) ^ (p+1))).natAbs / 10 ^ (p+1))
          ++ ['.']
          ++ padZeros
              (natDigits ((pyRound (q * (10:ℚ) ^ (p+1))).natAbs % 10 ^ (p+1)))
              (p+1) := by
      unfold formatFixed
      rw [if_neg (by omega : ¬ (p + 1 = 0))]
    rw [hform]
    have hcore := stripTrailing_shape_core
      (if pyRound (q * (10:ℚ) ^ (p+1)) < 0 then ['-'] else [])
      (natDigits ((pyRound (q * (10:ℚ) ^ (p+1))).natAbs / 10 ^ (p+1)))
      (padZeros
        (natDigits ((pyRound (q * (10:ℚ) ^ (p+1))).natAbs % 10 ^ (p+1)))
        (p+1))
      (p+1)
      (by split_ifs <;> simp)
      (natDigits_ne_nil _)
      (fun c hc => natDigits_mem hc)
      (fun c hc => padZeros_mem (fun c2 hc2 => natDigits_mem hc2) hc)
      (padZeros_length (natDigits_length (by omega)
        (Nat.mod_lt _ (by positivity))))
    refine ⟨hcore.1, hcore.2.1, fun hz => hcore.2.2 ?_⟩
    rw [hz]
    exact padZeros_zero_digits (p+1) (by omega)

/-- C7: for every value and symbol, the strings produced by
`format_price` and `format_quantity` (the latter after clamping at
`min_quantity`) have at most `price_precision` resp. `quantity_precision`
characters after the decimal point, never end in a `'0'` after the point
nor in a bare `'.'`, and contain no decimal point at all when the rounded
value is integral (its scaled integer is divisible by `10^precision`). -/
theorem C7_format_shape (st : PMState) (symbol : String) (q : ℚ) :
    (digitsAfterDot (format_price st q symbol).data
        ≤ (resolve_market st symbol).price_precision
      ∧ ('.' ∈ (format_price st q symbol).data →
          (format_price st q symbol).data.getLast? ≠ some '0'
          ∧ (format_price st q symbol).data.getLast? ≠ some '.')
      ∧ ((pyRound (q * (10:ℚ) ^ (resolve_market st symbol).price_precision)).natAbs
            % 10 ^ (resolve_market st symbol).price_precision = 0 →
          '.' ∉ (format_price st q symbol).data))
    ∧ (digitsAfterDot (format_quantity st q symbol).data
        ≤ (resolve_market st symbol).quantity_precision
      ∧ ('.' ∈ (format_quantity st q symbol).data →
          (format_quantity st q symbol).data.getLast? ≠ some '0'
          ∧ (format_quantity st q symbol).data.getLast? ≠ some '.')
      ∧ ((pyRound
            ((if q < (resolve_market st symbol).min_quantity
              then (resolve_market st symbol).min_quantity else q)
              * (10:ℚ) ^ (resolve_market st symbol).quantity_precision)).natAbs
            % 10 ^ (resolve_market st symbol).quantity_precision = 0 →
          '.' ∉ (format_quantity st q symbol).data)) :=
  ⟨formatFixed_shape q (resolve_market st symbol).price_precision,
   formatFixed_shape
     (if q < (resolve_market st symbol).min_quantity
      then (resolve_market st symbol).min_quantity else q)
     (resolve_market st symbol).quantity_precision⟩

unseal Rat.mul Rat.inv Rat.add in
/-- Closed witness for C7 at the default `"ETH-USDT"` market (price
precision 2, quantity precision 4, min quantity 0.001): price 7/2 formats
as `"3.5"` (one fractional digit, ends in a non-zero digit), price 100
formats with no decimal point, and quantity 0 is clamped to the minimum
and formats as `"0.001"`, again ending in a non-zero digit. -/
theorem C7_format_shape_witness :
    digitsAfterDot (format_price pmInit (mkRat 7 2) "ETH-USDT").data ≤ 2
    ∧ (format_price pmInit (mkRat 7 2) "ETH-USDT").data.getLast? ≠ some '0'
    ∧ (format_price pmInit (mkRat 7 2) "ETH-USDT").data.getLast? ≠ some '.'
    ∧ '.' ∉ (format_price pmInit (mkRat 100 1) "ETH-USDT").data
    ∧ (format_quantity pmInit 0 "ETH-USDT").data.getLast? ≠ some '0' := by
  have h1 := C7_format_shape pmInit "ETH-USDT" (mkRat 7 2)
  have h2 := C7_format_shape pmInit "ETH-USDT" (mkRat 100 1)
  have h3 := C7_format_shape pmInit "ETH-USDT" 0
  have hd1 := h1.1.2.1 (by decide)
  have hd3 := h3.2.2.1 (by decide)
  exact ⟨h1.1.1, hd1.1, hd1.2, h2.1.2.2 (by decide), hd3.1⟩

/-- Closed witness for C6: looking up `"ZZZ-USDT"` against a one-market
listing (only `"BTC"`) on empty caches yields exactly the hardcoded
default Market. -/
theorem C6_default_market_witness :
    (get_market_info pmInit pmDemoEnv "ZZZ-USDT").1
        = get_default_precision "ZZZ-USDT"
    ∧ (get_market_info pmInit pmDemoEnv "ZZZ-USDT").2 = pmInit
    ∧ (get_market_info pmInit pmDemoEnv "ZZZ-USDT").1.price_precision = 2
    ∧ (get_market_info pmInit pmDemoEnv "ZZZ-USDT").1.quantity_precision = 4
    ∧ (get_market_info pmInit pmDemoEnv "ZZZ-USDT").1.min_quantity = mkRat 1 1000
    ∧ (get_market_info pmInit pmDemoEnv "ZZZ-USDT").1.min_notional = 10 := by
  have h := C6_default_market pmInit pmDemoEnv "ZZZ-USDT"
    (by intro mid hm; simp [alistLookup, pmInit] at hm)
    (Or.inr ⟨_, rfl, by decide, by decide, by decide⟩)
  have hd := h.2.2 (by decide)
  exact ⟨h.1, h.2.1, hd.1, hd.2.1, hd.2.2.1, hd.2.2.2⟩

/-- Closed witness for C10: on `wsDemoState`, the list `[7, 8]` of channel
`("order_book","1")` grows to `[7, 8, 7]`, and a frame with channel field
`"order_book:1"` invokes `[7, 8, 7]` — callback `7` once per copy. -/
theorem C10_resubscribe_duplicates_witness :
    innerLookup ((resubscribeAll wsDemoState).1.subs.get "order_book") "1"
        = some [7, 8, 7]
    ∧ dispatchUpdate (resubscribeAll wsDemoState).1.subs "order_book"
        "order_book:1" = [7, 8, 7]
    ∧ ([7, 8, 7] : List Callback).count 7 = ([7, 8] : List Callback).count 7 + 1 := by
  have h := C10_resubscribe_duplicates wsDemoState "order_book" "1" 7 [8]
    rfl (by decide) (by decide) (by decide)
  exact ⟨h.1, h.2.1 "order_book:1" (by decide), h.2.2⟩

end LighterClient
